import Mathlib

/-!
# rtl_433_exporter

A shallow embedding of the ingestion and export code of the exporter
(`parse.go`, `collector.go`, `handler.go`) together with theorems about it.

Conventions of the embedding.

* A Go `string` is a sequence of bytes (`GoString`); a string literal of the
  source is its UTF-8 encoding (`gostr`).
* A Go `map[string]T` is an association list with pairwise distinct keys
  (`AList`): `m[k]` with its presence flag is `AList.lookup`, `m[k] = v` is
  `AList.insert`, and `range m` visits `AList.entries` (one of the orders Go
  may choose; no statement below depends on the order).
* A `time.Time` is an instant in integer nanoseconds on one time line.
* The two counters (`totalMeasurements[area]`, `discardedMeasurements`) are
  `float64` in the source and only ever hold `0`, `1` or the result of
  `+ 1` on such a value. A counter is modelled by the natural number it holds
  and `+ 1` by `float64.addOne`, the IEEE 754 sum rounded to nearest, ties to
  even: exact below `2^53`, absorbed at `2^53`.
* A parsed reading (`strconv.ParseFloat`) is carried as an uninterpreted
  64-bit pattern (`float64`); no arithmetic is ever done on readings.
* `strconv.ParseFloat(_, 64)` and the clock (`time.Now()`) are inputs of the
  functions that call them.
* Logging has no effect on the state and is left out; the mutex is left out
  of the sequential model.
-/

namespace rtl_433_exporter

/-- A byte. -/
abbrev byte := Fin 256

/-- A Go string: a sequence of bytes. -/
abbrev GoString := List byte

/-- The byte of an ASCII character. -/
def byteOf (c : Char) : byte := ⟨c.toNat % 256, Nat.mod_lt _ (by decide)⟩

/-- The byte with the given value (reduced modulo 256). -/
def byteVal (n : Nat) : byte := ⟨n % 256, Nat.mod_lt _ (by decide)⟩

/-- The UTF-8 encoding of a character (`utf8.AppendRune`). -/
def utf8.encode (c : Char) : GoString :=
  if c.toNat < 128 then [byteVal c.toNat]
  else if c.toNat < 2048 then [byteVal (192 + c.toNat / 64), byteVal (128 + c.toNat % 64)]
  else if c.toNat < 65536 then
    [byteVal (224 + c.toNat / 4096), byteVal (128 + c.toNat / 64 % 64),
      byteVal (128 + c.toNat % 64)]
  else
    [byteVal (240 + c.toNat / 262144), byteVal (128 + c.toNat / 4096 % 64),
      byteVal (128 + c.toNat / 64 % 64), byteVal (128 + c.toNat % 64)]

/-- The Go string of a string literal: the UTF-8 encoding of its characters. -/
def gostr (s : String) : GoString := (s.toList.map utf8.encode).flatten

/-- A Go `map[string]β`. -/
abbrev GoMap (β : Type) := AList (fun _ : GoString => β)

/-- A `float64` reading, carried as its bit pattern. -/
structure float64 where
  bits : Nat
deriving DecidableEq, Repr

/-- The Go expression `n + 1` on a `float64` that holds the natural number `n`:
the sum rounded to the nearest `float64`, ties to even. Every natural number
below `2^53` is a `float64` and the sum is exact; from `2^53` to `2^54` the
`float64` values are the even numbers and `n + 1` is a tie between `n` and
`n + 2`, won by the one with the even significand; from `2^54` on the values are at
least 4 apart and the sum rounds back to `n`. -/
def float64.addOne (n : Nat) : Nat :=
  if n < 9007199254740992 then n + 1
  else if n < 18014398509481984 ∧ n % 4 = 2 then n + 2
  else n

/-- An instant, in nanoseconds. -/
abbrev time.Time := Int

/-- The duration `time.Second`, in nanoseconds. -/
def time.Second : Int := 1000000000

/-- The least `time.Duration` (`-1 << 63`). -/
def time.minDuration : Int := -9223372036854775808

/-- The greatest `time.Duration` (`1<<63 - 1`). -/
def time.maxDuration : Int := 9223372036854775807

/-- The method `t.Sub(u)`: the duration `t - u`, saturated to the range of `time.Duration`. -/
def time.Sub (t u : time.Time) : Int :=
  if t - u < time.minDuration then time.minDuration
  else if time.maxDuration < t - u then time.maxDuration
  else t - u

/-- The method `t.After(u)`. -/
def time.After (t u : time.Time) : Bool := decide (u < t)

/-- The test `d.Seconds() < n` for a duration `d` and a whole number `n` of seconds.
`Seconds` returns `float64(d / Second) + float64(d % Second) / 1e9`; the integer
part is exact and the fraction lies strictly inside `(-1, 1)` with at most nine
decimal digits, so the rounded sum is below the whole number `n` exactly when
`d` is below `n` seconds. -/
def time.secondsLT (d : Int) (n : Int) : Bool := decide (d < n * time.Second)

/-! ## `strings` -/

/-- The call `strings.Split(s, sep)` for a one-character separator: the pieces
of `s` between the separators (one more piece than there are separators). -/
def strings.Split (s : GoString) (sep : byte) : List GoString :=
  match s with
  | [] => [[]]
  | c :: cs =>
    if c = sep then [] :: strings.Split cs sep
    else
      match strings.Split cs sep with
      | [] => [[c]]
      | piece :: pieces => (c :: piece) :: pieces

/-- Cuts `s` right after its first `sep`, keeping the separator at the end of
the first part; `none` when `s` has no `sep`. -/
def strings.cutAfter (sep : byte) : GoString → Option (GoString × GoString)
  | [] => none
  | c :: cs =>
    if c = sep then some ([c], cs)
    else (strings.cutAfter sep cs).map (fun p => (c :: p.1, p.2))

/-- The call `strings.SplitAfterN(s, sep, n)` for a one-character separator and
`n ≥ 0`: at most `n` pieces, each but the last ending in the separator, the
last one being the unsplit remainder. -/
def strings.SplitAfterN (s : GoString) (sep : byte) : Nat → List GoString
  | 0 => []
  | 1 => [s]
  | n + 2 =>
    match strings.cutAfter sep s with
    | none => [s]
    | some (piece, remainder) => piece :: strings.SplitAfterN remainder sep (n + 1)

/-! ## `parse.go` -/

/-- A single sample from influx-formatted data. -/
structure InfluxSample where
  Metric : GoString
  Metadata : GoMap GoString
  Timestamp : time.Time
  Value : float64

/-- The three errors `parseBadRTLInfluxData` builds with `fmt.Errorf`, each with
the text it quotes. -/
inductive ParseError where
  | nameRest (data : GoString)
  | metadataValuePairs (data : GoString)
  | keyValue (pair : GoString)
deriving DecidableEq, Repr

/-- The inner loop of `parseBadRTLInfluxData` over the comma-separated pairs:
an empty pair is skipped, any other pair must split on `=` into exactly two
pieces and is stored in the map. -/
def parsePairs : List GoString → GoMap GoString → Except ParseError (GoMap GoString)
  | [], metadata => .ok metadata
  | pair :: rest, metadata =>
    if pair ≠ [] then
      match strings.Split pair (byteOf '=') with
      | [key, value] => parsePairs rest (metadata.insert key value)
      | _ => .error (.keyValue pair)
    else parsePairs rest metadata

/-- The body of the loop of `parseBadRTLInfluxData` for one non-empty line. -/
def parseLine (ts : time.Time) (line : GoString) : Except ParseError InfluxSample :=
  match strings.SplitAfterN line (byteOf ',') 2 with
  | [metricname, data] =>
    match strings.Split data (byteOf ' ') with
    | [metadataPairs, valuePairs] =>
      let pairs := metadataPairs ++ (byteOf ',') :: valuePairs
      match parsePairs (strings.Split pairs (byteOf ',')) ∅ with
      | .ok metadata =>
        .ok { Metric := metricname, Metadata := metadata, Timestamp := ts, Value := ⟨0⟩ }
      | .error e => .error e
    | _ => .error (.metadataValuePairs data)
  | _ => .error (.nameRest line)

/-- The loop of `parseBadRTLInfluxData` over the lines, with the samples
collected so far. The result is the Go pair `(samples, err)`; an error returns
the nil slice. -/
def parseLoop (ts : time.Time) :
    List GoString → List InfluxSample → List InfluxSample × Option ParseError
  | [], samples => (samples, none)
  | line :: lines, samples =>
    if line = [] then parseLoop ts lines samples
    else
      match parseLine ts line with
      | .error e => ([], some e)
      | .ok s => parseLoop ts lines (samples ++ [s])

/-- The function `parseBadRTLInfluxData`; `ts` is the reading of `time.Now()`
taken at its start. -/
def parseBadRTLInfluxData (ts : time.Time) (data : GoString) :
    List InfluxSample × Option ParseError :=
  parseLoop ts (strings.Split data (byteOf '\n')) []

/-! ## `prometheus` -/

/-- A metric descriptor: `prometheus.NewDesc(fqName, help, variableLabels, nil)`. -/
structure prometheus.Desc where
  fqName : String
  help : String
  variableLabels : List String
deriving DecidableEq, Repr

/-- The constructor `prometheus.NewDesc` with no constant labels. -/
def prometheus.NewDesc (fqName help : String) (variableLabels : List String) : prometheus.Desc :=
  { fqName := fqName, help := help, variableLabels := variableLabels }

/-- The type `prometheus.ValueType` (the two values the collector uses). -/
inductive prometheus.ValueType where
  | CounterValue
  | GaugeValue
deriving DecidableEq, Repr

/-- The `float64` value of a metric point: a count or a parsed reading. -/
inductive prometheus.Value where
  | count (n : Nat)
  | reading (x : float64)
deriving DecidableEq, Repr

/-- A constant metric point. -/
structure prometheus.Metric where
  desc : prometheus.Desc
  valueType : prometheus.ValueType
  value : prometheus.Value
  labelValues : List GoString
deriving DecidableEq

/-- The function `utf8.ValidString` from the state of its decoder: `pending` is the
number of continuation bytes still due and `lo`, `hi` bound the next of them. -/
def utf8.validFrom : Nat → Nat → Nat → GoString → Bool
  | pending, _, _, [] => pending == 0
  | 0, _, _, b :: rest =>
    if b.val < 128 then utf8.validFrom 0 128 191 rest
    else if 194 ≤ b.val ∧ b.val ≤ 223 then utf8.validFrom 1 128 191 rest
    else if b.val = 224 then utf8.validFrom 2 160 191 rest
    else if b.val = 237 then utf8.validFrom 2 128 159 rest
    else if 225 ≤ b.val ∧ b.val ≤ 239 then utf8.validFrom 2 128 191 rest
    else if b.val = 240 then utf8.validFrom 3 144 191 rest
    else if 241 ≤ b.val ∧ b.val ≤ 243 then utf8.validFrom 3 128 191 rest
    else if b.val = 244 then utf8.validFrom 3 128 143 rest
    else false
  | pending + 1, lo, hi, b :: rest =>
    if lo ≤ b.val ∧ b.val ≤ hi then utf8.validFrom pending 128 191 rest else false

/-- The function `utf8.ValidString`: whether the bytes are well-formed UTF-8. -/
def utf8.ValidString (s : GoString) : Bool := utf8.validFrom 0 128 191 s

/-- The call `prometheus.MustNewConstMetric(desc, valueType, value, labelValues...)`;
it panics (`none`) when the number of label values differs from the number of
variable labels of the descriptor or when a label value is not valid UTF-8. (It
also panics on a descriptor that `NewDesc` built with an error; the descriptors
of `NewCollector` have none.) -/
def prometheus.MustNewConstMetric (desc : prometheus.Desc) (valueType : prometheus.ValueType)
    (value : prometheus.Value) (labelValues : List GoString) : Option prometheus.Metric :=
  if labelValues.length = desc.variableLabels.length ∧
      labelValues.all utf8.ValidString = true then
    some { desc := desc, valueType := valueType, value := value, labelValues := labelValues }
  else none

/-! ## `collector.go` -/

/-- The struct `sample`. -/
structure sample where
  Time : time.Time
  Area : GoString
  Temperature : float64
  Humidity : float64
  Battery : float64
deriving DecidableEq, Repr

/-- The struct `Collector` (without its mutex). -/
structure Collector where
  Temperature : prometheus.Desc
  Humidity : prometheus.Desc
  Battery : prometheus.Desc
  RoomMeasurements : Option prometheus.Desc
  Measurements : prometheus.Desc
  DiscardedMeasurements : prometheus.Desc
  areaMap : GoMap GoString
  latestMeasurements : GoMap sample
  totalMeasurements : GoMap Nat
  discardedMeasurements : Nat

/-- The constructor `NewCollector`. -/
def NewCollector (areaMap : GoMap GoString) : Collector :=
  { Temperature :=
      prometheus.NewDesc "rtl_temperature" "Temperature in F of the area (or id)." ["area"]
    Humidity :=
      prometheus.NewDesc "rtl_humidity" "Humidity as a percentage for the area (or id)." ["area"]
    Battery :=
      prometheus.NewDesc "rtl_battery_status" "Battery status as reported be the sensor" ["area"]
    RoomMeasurements := none
    Measurements :=
      prometheus.NewDesc "rtl_measurements_total" "Number of measurements reported for the area"
        ["area"]
    DiscardedMeasurements :=
      prometheus.NewDesc "rtl_discarded_measurements_total"
        "Number of measurements reported that were invalid for some reason" []
    areaMap := areaMap
    latestMeasurements := ∅
    totalMeasurements := ∅
    discardedMeasurements := 0 }

/-- The method `Collector.Describe`: the descriptors sent on the channel, in order. -/
def Collector.Describe (c : Collector) : List prometheus.Desc :=
  [c.Temperature, c.Humidity, c.Battery, c.Measurements, c.DiscardedMeasurements]

/-- The variable `requiredMetadataFields`. -/
def requiredMetadataFields : List GoString :=
  [(gostr "id"), (gostr "temperature_F"), (gostr "humidity"), (gostr "battery_ok")]

/-- The Go expression `m[k]` on a `map[string]string`: the empty string when `k` is absent. -/
def GoMap.index (m : GoMap GoString) (k : GoString) : GoString :=
  (m.lookup k).getD []

/-- The method `Collector.influxSampleToSample`: the collector after the call
and the returned pointer (`none` for `nil`). `ParseFloat s` is
`strconv.ParseFloat(s, 64)`, `none` when it returns an error. -/
def Collector.influxSampleToSample (ParseFloat : GoString → Option float64)
    (c : Collector) (s : InfluxSample) : Collector × Option sample :=
  if requiredMetadataFields.any (fun rf => (s.Metadata.lookup rf).isNone) then
    ({ c with discardedMeasurements := float64.addOne c.discardedMeasurements }, none)
  else
    let id := GoMap.index s.Metadata (gostr "id")
    let id := match c.areaMap.lookup id with
      | some x => x
      | none => id
    match ParseFloat (GoMap.index s.Metadata (gostr "temperature_F")),
          ParseFloat (GoMap.index s.Metadata (gostr "humidity")),
          ParseFloat (GoMap.index s.Metadata (gostr "battery_ok")) with
    | some temp, some humidity, some battery =>
      let total := match c.totalMeasurements.lookup id with
        | none => 1
        | some n => float64.addOne n
      ({ c with totalMeasurements := c.totalMeasurements.insert id total },
        some { Time := s.Timestamp, Area := id, Temperature := temp, Humidity := humidity,
               Battery := battery })
    | _, _, _ => ({ c with discardedMeasurements := float64.addOne c.discardedMeasurements }, none)

/-- The body of the loop of `Collector.Observe` for one record. -/
def Collector.observeOne (ParseFloat : GoString → Option float64)
    (c : Collector) (record : InfluxSample) : Collector :=
  match c.influxSampleToSample ParseFloat record with
  | (c, none) => c
  | (c, some s) =>
    match c.latestMeasurements.lookup s.Area with
    | none => { c with latestMeasurements := c.latestMeasurements.insert s.Area s }
    | some currentAreaSample =>
      if time.After s.Time currentAreaSample.Time then
        { c with latestMeasurements := c.latestMeasurements.insert s.Area s }
      else c

/-- The method `Collector.Observe`: the records are processed in order. -/
def Collector.Observe (ParseFloat : GoString → Option float64)
    (c : Collector) (samples : List InfluxSample) : Collector :=
  samples.foldl (Collector.observeOne ParseFloat) c

/-- The first loop of `Collector.Collect`: one counter point per entry of `totalMeasurements`. -/
def Collector.collectTotals (c : Collector) :
    List (Sigma (fun _ : GoString => Nat)) → Option (List prometheus.Metric)
  | [] => some []
  | ⟨area, measurements⟩ :: rest =>
    match prometheus.MustNewConstMetric c.Measurements .CounterValue (.count measurements) [area],
          Collector.collectTotals c rest with
    | some m, some ms => some (m :: ms)
    | _, _ => none

/-- The second loop of `Collector.Collect`: the three gauge points of every entry
of `latestMeasurements` that is recent. `now area` is the reading of
`time.Now()` in the iteration that visits `area`. -/
def Collector.collectLatest (now : GoString → time.Time) (c : Collector) :
    List (Sigma (fun _ : GoString => sample)) → Option (List prometheus.Metric)
  | [] => some []
  | ⟨area, sample⟩ :: rest =>
    if time.secondsLT (time.Sub (now area) sample.Time) 300 then
      match prometheus.MustNewConstMetric c.Temperature .GaugeValue (.reading sample.Temperature) [area],
            prometheus.MustNewConstMetric c.Humidity .GaugeValue (.reading sample.Humidity) [area],
            prometheus.MustNewConstMetric c.Battery .GaugeValue (.reading sample.Battery) [area],
            Collector.collectLatest now c rest with
      | some t, some h, some b, some ms => some (t :: h :: b :: ms)
      | _, _, _, _ => none
    else Collector.collectLatest now c rest

/-- The method `Collector.Collect`: the points sent on the channel, in order;
`none` when a `MustNewConstMetric` panics. -/
def Collector.Collect (now : GoString → time.Time) (c : Collector) :
    Option (List prometheus.Metric) :=
  match c.collectTotals c.totalMeasurements.entries,
        prometheus.MustNewConstMetric c.DiscardedMeasurements .CounterValue
          (.count c.discardedMeasurements) [],
        c.collectLatest now c.latestMeasurements.entries with
  | some totals, some discarded, some latest => some (totals ++ discarded :: latest)
  | _, _, _ => none

/-! ## `handler.go` -/

/-- The method `InfluxHandler.ServeHTTP` as a function on the collector of the
handler. `body` is the request body read by `ioutil.ReadAll` (`none` when the
request has no body or reading it fails); `ts` is the clock reading taken by the
parser. A parse error is logged and the (nil) slice is observed all the same. -/
def InfluxHandler.ServeHTTP (ParseFloat : GoString → Option float64) (ts : time.Time)
    (c : Collector) (body : Option GoString) : Collector :=
  match body with
  | none => c
  | some b =>
    let (samples, _) := parseBadRTLInfluxData ts b
    c.Observe ParseFloat samples


/-! ## Concrete inputs -/

/-- A stand-in for `strconv.ParseFloat` on concrete inputs: it accepts the
non-empty digit strings and returns the number they spell. -/
def digitsParseFloat (s : GoString) : Option float64 :=
  if s ≠ [] ∧ s.all (fun x => decide (48 ≤ x.val ∧ x.val ≤ 57)) = true then
    some ⟨s.foldl (fun n x => 10 * n + (x.val - 48)) 0⟩
  else none

/-- A record with the given id, temperature, humidity and battery texts. -/
def mkRecord (ts : time.Time) (id temp hum bat : String) : InfluxSample :=
  { Metric := (gostr "A,")
    Metadata := ((((∅ : GoMap GoString).insert (gostr "id") (gostr id)).insert
      (gostr "temperature_F") (gostr temp)).insert (gostr "humidity") (gostr hum)).insert
      (gostr "battery_ok") (gostr bat)
    Timestamp := ts
    Value := ⟨0⟩ }

/-- An area map sending the id `1` to `kitchen`. -/
def kitchenMap : GoMap GoString := (∅ : GoMap GoString).insert (gostr "1") (gostr "kitchen")

/-- The table of latest samples after a valid sample `s` has been reconciled
into it: the staleness rule of `Observe` on the table alone. -/
def reconcile (latest : GoMap sample) (s : sample) : GoMap sample :=
  match latest.lookup s.Area with
  | none => latest.insert s.Area s
  | some cur => if cur.Time < s.Time then latest.insert s.Area s else latest

/-- The samples the normaliser returns for the records of a batch, in order
(the discarded records give none). -/
def Collector.samplesOf (ParseFloat : GoString → Option float64) (c : Collector)
    (rs : List InfluxSample) : List sample :=
  rs.filterMap (fun r => (c.influxSampleToSample ParseFloat r).2)

/-- The Go expression `c.totalMeasurements[area]`: zero when `area` has no count. -/
def Collector.total (c : Collector) (area : GoString) : Nat :=
  (c.totalMeasurements.lookup area).getD 0

/-- Whether the normaliser returns a sample of area `area` for the record. -/
def Collector.normalizesTo (ParseFloat : GoString → Option float64) (c : Collector)
    (area : GoString) (r : InfluxSample) : Bool :=
  match (c.influxSampleToSample ParseFloat r).2 with
  | some s => decide (s.Area = area)
  | none => false

/-- The five descriptors of `c` are the ones `NewCollector` builds. -/
def Collector.descsBuilt (c : Collector) : Prop :=
  c.Temperature = (NewCollector c.areaMap).Temperature ∧
  c.Humidity = (NewCollector c.areaMap).Humidity ∧
  c.Battery = (NewCollector c.areaMap).Battery ∧
  c.Measurements = (NewCollector c.areaMap).Measurements ∧
  c.DiscardedMeasurements = (NewCollector c.areaMap).DiscardedMeasurements

/-- The counter point `Collect` sends for an entry of `totalMeasurements`. -/
def Collector.totalPoint (c : Collector) (area : GoString) (n : Nat) : prometheus.Metric :=
  { desc := c.Measurements, valueType := .CounterValue, value := .count n, labelValues := [area] }

/-- The counter point `Collect` sends for `discardedMeasurements`. -/
def Collector.discardedPoint (c : Collector) : prometheus.Metric :=
  { desc := c.DiscardedMeasurements, valueType := .CounterValue,
    value := .count c.discardedMeasurements, labelValues := [] }

/-- The three gauge points `Collect` sends for a recent entry of `latestMeasurements`. -/
def Collector.gaugePoints (c : Collector) (area : GoString) (s : sample) :
    List prometheus.Metric :=
  [{ desc := c.Temperature, valueType := .GaugeValue, value := .reading s.Temperature,
     labelValues := [area] },
   { desc := c.Humidity, valueType := .GaugeValue, value := .reading s.Humidity,
     labelValues := [area] },
   { desc := c.Battery, valueType := .GaugeValue, value := .reading s.Battery,
     labelValues := [area] }]

/-- A fresh collector that has observed one valid record of time 0 for the id `1`. -/
def kitchenCollector : Collector :=
  (NewCollector kitchenMap).Observe digitsParseFloat [mkRecord 0 "1" "50" "10" "1"]

/-! ## Well-formed lines, in the words of the specification -/

/-- The text of a line after its first comma (empty when it has no comma). -/
def restOfLine (line : GoString) : GoString :=
  (line.dropWhile (fun x => x != byteOf ',')).drop 1

/-- The non-empty comma-separated segments of the space-separated tokens of the
text after the first comma. -/
def pairSegments (line : GoString) : List GoString :=
  (((strings.Split (restOfLine line) (byteOf ' ')).map (fun tok => strings.Split tok (byteOf ','))).flatten).filter
    (fun pair => decide (pair ≠ []))

/-- A line is malformed when it contains no comma, or the text after its first
comma does not split on the space into exactly two tokens, or one of its
non-empty comma-separated pairs does not split on `=` into exactly two tokens. -/
def malformedLine (line : GoString) : Prop :=
  (byteOf ',') ∉ line ∨ (strings.Split (restOfLine line) (byteOf ' ')).length ≠ 2 ∨
    ∃ pair ∈ pairSegments line, (strings.Split pair (byteOf '=')).length ≠ 2

instance : DecidablePred malformedLine := fun line =>
  inferInstanceAs (Decidable ((byteOf ',') ∉ line ∨ (strings.Split (restOfLine line) (byteOf ' ')).length ≠ 2 ∨
    ∃ pair ∈ pairSegments line, (strings.Split pair (byteOf '=')).length ≠ 2))

/-- The key and the value of a pair that splits on `=` into exactly two tokens. -/
def keyValueOf (pair : GoString) : Option (GoString × GoString) :=
  match strings.Split pair (byteOf '=') with
  | [key, value] => some (key, value)
  | _ => none

/-- The key=value pairs found in the metadata region and the value region of a
line, in order. -/
def keyValues (line : GoString) : List (GoString × GoString) :=
  (pairSegments line).filterMap keyValueOf

/-- The value of the last pair with key `k` in a list of pairs. -/
def lastValue (k : GoString) : List (GoString × GoString) → Option GoString
  | [] => none
  | (key, value) :: rest =>
    match lastValue k rest with
    | some w => some w
    | none => if key = k then some value else none

/-- The record `parseBadRTLInfluxData` builds for a well-formed line. -/
def recordOfLine (ts : time.Time) (line : GoString) : InfluxSample :=
  { Metric := line.takeWhile (fun x => x != byteOf ',') ++ [(byteOf ',')]
    Metadata := (keyValues line).foldl (fun m p => m.insert p.1 p.2) ∅
    Timestamp := ts
    Value := ⟨0⟩ }

/-- A payload of three lines whose second line has no comma. -/
def badPayload : GoString :=
  gostr ("A,id=1 temperature_F=50,humidity=10,battery_ok=1\nbadline\n" ++
    "A,id=2 temperature_F=60,humidity=20,battery_ok=1")

/-- The non-empty lines of a payload, in order. -/
def nonEmptyLines (data : GoString) : List GoString :=
  (strings.Split data (byteOf '\n')).filter (fun line => decide (line ≠ []))

/-- A well-formed one-line payload in which the key `id` occurs twice. -/
def repeatedKeyPayload : GoString := (gostr "A,id=1 id=2")

/-- A well-formed payload of two lines for the id `1`. -/
def twoLinePayload : GoString :=
  gostr ("A,id=1 temperature_F=50,humidity=10,battery_ok=1\n" ++
    "A,id=1 temperature_F=60,humidity=20,battery_ok=1")

/-- A record that has neither the key `humidity` nor the key `battery_ok`. -/
def incompleteRecord : InfluxSample :=
  { Metric := (gostr "A,")
    Metadata := ((∅ : GoMap GoString).insert (gostr "id") (gostr "1")).insert
      (gostr "temperature_F") (gostr "50")
    Timestamp := 9
    Value := ⟨0⟩ }

/-- A record with the four required keys whose humidity text is not a number. -/
def unparseableRecord : InfluxSample := mkRecord 9 "1" "50" "wet" "1"

/-- The first line of `twoLinePayload`. -/
def twoLinePayloadFirst : GoString :=
  (gostr "A,id=1 temperature_F=50,humidity=10,battery_ok=1")

/-- The second line of `twoLinePayload`. -/
def twoLinePayloadSecond : GoString :=
  (gostr "A,id=1 temperature_F=60,humidity=20,battery_ok=1")

/-- The fields of the collector that ingestion and export share. -/
inductive StoreField where
  | latestMeasurements
  | totalMeasurements
  | discardedMeasurements
deriving DecidableEq, Repr

/-- An operation on the mutex `mu` or on a shared field. -/
inductive StoreOp where
  | lock
  | unlock
  | read (field : StoreField)
  | write (field : StoreField)
deriving DecidableEq, Repr

/-- The operations `influxSampleToSample` performs on the mutex and the shared
fields, in order: the statement `c.discardedMeasurements += 1` on both discard
paths, the lookup and the store of `c.totalMeasurements[id]` on success. It
never touches the mutex. -/
def Collector.influxSampleToSampleOps (ParseFloat : GoString → Option float64)
    (s : InfluxSample) : List StoreOp :=
  if requiredMetadataFields.any (fun rf => (s.Metadata.lookup rf).isNone) then
    [.read .discardedMeasurements, .write .discardedMeasurements]
  else
    match ParseFloat (GoMap.index s.Metadata (gostr "temperature_F")),
          ParseFloat (GoMap.index s.Metadata (gostr "humidity")),
          ParseFloat (GoMap.index s.Metadata (gostr "battery_ok")) with
    | some _, some _, some _ => [.read .totalMeasurements, .write .totalMeasurements]
    | _, _, _ => [.read .discardedMeasurements, .write .discardedMeasurements]

/-- The operations the body of the loop of `Observe` performs for one record:
those of the normaliser, then the lookup of `c.latestMeasurements[s.Area]`, then
the store of the sample between `c.mu.Lock()` and `c.mu.Unlock()` when the
sample is kept. -/
def Collector.observeOneOps (ParseFloat : GoString → Option float64)
    (c : Collector) (record : InfluxSample) : List StoreOp :=
  Collector.influxSampleToSampleOps ParseFloat record ++
    match c.influxSampleToSample ParseFloat record with
    | (_, none) => []
    | (c, some s) =>
      .read .latestMeasurements ::
        match c.latestMeasurements.lookup s.Area with
        | none => [.lock, .write .latestMeasurements, .unlock]
        | some currentAreaSample =>
          if time.After s.Time currentAreaSample.Time then
            [.lock, .write .latestMeasurements, .unlock]
          else []

/-- The operations `Observe` performs on the mutex and the shared fields for a batch. -/
def Collector.ObserveOps (ParseFloat : GoString → Option float64) :
    Collector → List InfluxSample → List StoreOp
  | _, [] => []
  | c, record :: samples =>
    c.observeOneOps ParseFloat record ++
      Collector.ObserveOps ParseFloat (c.observeOne ParseFloat record) samples

/-- The operations `Collect` performs: it locks, reads the three shared fields
and unlocks on return. -/
def Collector.CollectOps : List StoreOp :=
  [.lock, .read .totalMeasurements, .read .discardedMeasurements, .read .latestMeasurements,
    .unlock]

/-- Whether every read and write of a shared field in a sequence of operations
happens while the mutex is held; `held` tells whether it is held at the start. -/
def lockDiscipline : Bool → List StoreOp → Bool
  | _, [] => true
  | _, .lock :: ops => lockDiscipline true ops
  | _, .unlock :: ops => lockDiscipline false ops
  | held, .read _ :: ops => held && lockDiscipline held ops
  | held, .write _ :: ops => held && lockDiscipline held ops

/-- Whether every write of a shared field in a sequence of operations happens
while the mutex is held. -/
def writesLocked : Bool → List StoreOp → Bool
  | _, [] => true
  | _, .lock :: ops => writesLocked true ops
  | _, .unlock :: ops => writesLocked false ops
  | held, .read _ :: ops => writesLocked held ops
  | held, .write _ :: ops => held && writesLocked held ops

/-! ## Sums and invariants of the tables -/

/-- The sum of the counts of all areas of the totals table. -/
def Collector.totalSum (c : Collector) : Nat :=
  (c.totalMeasurements.entries.map (fun e => e.2)).sum

/-- The two tables have the same areas, every stored latest sample carries the
area it is stored under, and every count is at least one. -/
def Collector.consistent (c : Collector) : Prop :=
  (∀ a : GoString, a ∈ c.latestMeasurements ↔ a ∈ c.totalMeasurements) ∧
  (∀ (a : GoString) (s : sample), c.latestMeasurements.lookup a = some s → s.Area = a) ∧
  (∀ (a : GoString) (n : Nat), c.totalMeasurements.lookup a = some n → 1 ≤ n)

/-- A collector whose count for `kitchen` and whose discarded counter both hold
`2^53`, with a latest sample of time 0 for `kitchen`. -/
def saturatedCollector : Collector :=
  { NewCollector kitchenMap with
    latestMeasurements :=
      (∅ : GoMap sample).insert (gostr "kitchen") ⟨0, gostr "kitchen", ⟨50⟩, ⟨10⟩, ⟨1⟩⟩
    totalMeasurements := (∅ : GoMap Nat).insert (gostr "kitchen") 9007199254740992
    discardedMeasurements := 9007199254740992 }

/-- Every area of the two tables is valid UTF-8. -/
def Collector.labelsValid (c : Collector) : Prop :=
  (∀ a ∈ c.totalMeasurements.keys, utf8.ValidString a = true) ∧
  (∀ a ∈ c.latestMeasurements.keys, utf8.ValidString a = true)

instance (c : Collector) : Decidable c.labelsValid :=
  inferInstanceAs (Decidable ((∀ a ∈ c.totalMeasurements.keys, utf8.ValidString a = true) ∧
    (∀ a ∈ c.latestMeasurements.keys, utf8.ValidString a = true)))

/-- The total the normaliser writes for an area. -/
def nextTotal (totals : GoMap Nat) (area : GoString) : Nat :=
  match totals.lookup area with
  | none => 1
  | some n => float64.addOne n

/-- The collector with one more discarded measurement. -/
def Collector.discardOne (c : Collector) : Collector :=
  { c with discardedMeasurements := float64.addOne c.discardedMeasurements }

/-- The collector with one more measurement counted for `area`. -/
def Collector.countOne (c : Collector) (area : GoString) : Collector :=
  { c with totalMeasurements :=
      c.totalMeasurements.insert area (nextTotal c.totalMeasurements area) }

/-- The area a record resolves to: the mapped name of its id, or the id itself. -/
def resolveArea (areaMap : GoMap GoString) (r : InfluxSample) : GoString :=
  match areaMap.lookup (GoMap.index r.Metadata (gostr "id")) with
  | some x => x
  | none => GoMap.index r.Metadata (gostr "id")

theorem influx_missing (pf : GoString → Option float64) (c : Collector) (r : InfluxSample)
    (h : requiredMetadataFields.any (fun rf => (r.Metadata.lookup rf).isNone) = true) :
    c.influxSampleToSample pf r = (c.discardOne, none) := by
  unfold Collector.influxSampleToSample
  rw [if_pos h]
  rfl

theorem influx_parsed (pf : GoString → Option float64) (c : Collector) (r : InfluxSample)
    (t hu b : float64)
    (h : requiredMetadataFields.any (fun rf => (r.Metadata.lookup rf).isNone) = false)
    (ht : pf (GoMap.index r.Metadata (gostr "temperature_F")) = some t)
    (hh : pf (GoMap.index r.Metadata (gostr "humidity")) = some hu)
    (hb : pf (GoMap.index r.Metadata (gostr "battery_ok")) = some b) :
    c.influxSampleToSample pf r =
      (c.countOne (resolveArea c.areaMap r),
        some { Time := r.Timestamp, Area := resolveArea c.areaMap r, Temperature := t,
               Humidity := hu, Battery := b }) := by
  unfold Collector.influxSampleToSample
  rw [if_neg (by simp [h])]
  simp only [ht, hh, hb]
  rfl

theorem influx_unparsed (pf : GoString → Option float64) (c : Collector) (r : InfluxSample)
    (h : requiredMetadataFields.any (fun rf => (r.Metadata.lookup rf).isNone) = false)
    (hp : pf (GoMap.index r.Metadata (gostr "temperature_F")) = none ∨
          pf (GoMap.index r.Metadata (gostr "humidity")) = none ∨
          pf (GoMap.index r.Metadata (gostr "battery_ok")) = none) :
    c.influxSampleToSample pf r = (c.discardOne, none) := by
  unfold Collector.influxSampleToSample
  rw [if_neg (by simp [h])]
  dsimp only
  split
  · rename_i t hu b ht hh hb
    rcases hp with hp | hp | hp <;> simp_all
  · rfl

/-- Every call of the normaliser either discards the record or counts it for the
area of the sample it returns. -/
theorem influx_cases (pf : GoString → Option float64) (c : Collector) (r : InfluxSample) :
    c.influxSampleToSample pf r = (c.discardOne, none) ∨
    ∃ s : sample, s.Area = resolveArea c.areaMap r ∧ s.Time = r.Timestamp ∧
      c.influxSampleToSample pf r = (c.countOne s.Area, some s) := by
  cases h : requiredMetadataFields.any (fun rf => (r.Metadata.lookup rf).isNone) with
  | true => exact Or.inl (influx_missing pf c r h)
  | false =>
    rcases ht : pf (GoMap.index r.Metadata (gostr "temperature_F")) with _ | t
    · exact Or.inl (influx_unparsed pf c r h (Or.inl ht))
    rcases hh : pf (GoMap.index r.Metadata (gostr "humidity")) with _ | hu
    · exact Or.inl (influx_unparsed pf c r h (Or.inr (Or.inl hh)))
    rcases hb : pf (GoMap.index r.Metadata (gostr "battery_ok")) with _ | b
    · exact Or.inl (influx_unparsed pf c r h (Or.inr (Or.inr hb)))
    exact Or.inr ⟨sample.mk r.Timestamp (resolveArea c.areaMap r) t hu b, rfl, rfl,
      influx_parsed pf c r t hu b h ht hh hb⟩

theorem influx_none (pf : GoString → Option float64) (c : Collector) (r : InfluxSample)
    (h : (c.influxSampleToSample pf r).2 = none) :
    c.influxSampleToSample pf r = (c.discardOne, none) := by
  rcases influx_cases pf c r with h1 | ⟨s, -, -, h1⟩
  · exact h1
  · rw [h1] at h; simp at h

theorem influx_some (pf : GoString → Option float64) (c : Collector) (r : InfluxSample)
    (s : sample) (h : (c.influxSampleToSample pf r).2 = some s) :
    c.influxSampleToSample pf r = (c.countOne s.Area, some s) := by
  rcases influx_cases pf c r with h1 | ⟨s1, -, -, h1⟩
  · rw [h1] at h; simp at h
  · rw [h1] at h
    simp only [Option.some.injEq] at h
    subst h
    exact h1

theorem influx_snd_congr (pf : GoString → Option float64) (c c1 : Collector) (r : InfluxSample)
    (h : c.areaMap = c1.areaMap) :
    (c.influxSampleToSample pf r).2 = (c1.influxSampleToSample pf r).2 := by
  unfold Collector.influxSampleToSample
  split_ifs with h1
  · rfl
  · dsimp only
    rw [h]
    split <;> rfl

/-! ## One step of `Observe` -/

theorem observeOne_none (pf : GoString → Option float64) (c : Collector) (r : InfluxSample)
    (h : (c.influxSampleToSample pf r).2 = none) :
    c.observeOne pf r = c.discardOne := by
  unfold Collector.observeOne
  rw [influx_none pf c r h]

theorem observeOne_some (pf : GoString → Option float64) (c : Collector) (r : InfluxSample)
    (s : sample) (h : (c.influxSampleToSample pf r).2 = some s) :
    (c.observeOne pf r).latestMeasurements = reconcile c.latestMeasurements s ∧
    (c.observeOne pf r).totalMeasurements =
      c.totalMeasurements.insert s.Area (nextTotal c.totalMeasurements s.Area) ∧
    (c.observeOne pf r).discardedMeasurements = c.discardedMeasurements := by
  unfold Collector.observeOne reconcile
  rw [influx_some pf c r s h]
  simp only [Collector.countOne, time.After, decide_eq_true_eq]
  rcases c.latestMeasurements.lookup s.Area with _ | cur
  · exact ⟨rfl, rfl, rfl⟩
  · by_cases hlt : cur.Time < s.Time
    · simp [hlt]
    · simp [hlt]

theorem Observe_nil (pf : GoString → Option float64) (c : Collector) :
    c.Observe pf [] = c := rfl

theorem Observe_cons (pf : GoString → Option float64) (c : Collector) (r : InfluxSample)
    (rs : List InfluxSample) :
    c.Observe pf (r :: rs) = (c.observeOne pf r).Observe pf rs := rfl

theorem Observe_singleton (pf : GoString → Option float64) (c : Collector) (r : InfluxSample) :
    c.Observe pf [r] = c.observeOne pf r := rfl

theorem reconcile_lookup_ne (latest : GoMap sample) (s : sample) (a : GoString)
    (ha : a ≠ s.Area) : (reconcile latest s).lookup a = latest.lookup a := by
  unfold reconcile
  rcases latest.lookup s.Area with _ | cur
  · exact AList.lookup_insert_ne ha
  · by_cases hlt : cur.Time < s.Time
    · simp only [if_pos hlt]
      exact AList.lookup_insert_ne ha
    · simp only [if_neg hlt]

/-- C1: a valid sample whose area has no stored latest becomes the latest of
its area; when the area has a stored latest, the new sample replaces it if its
time is strictly after the stored time and otherwise the table of latest
samples is left as it was; no other area is touched. -/
theorem Observe_latest_rule (pf : GoString → Option float64) (c : Collector) (r : InfluxSample)
    (s : sample) (hs : (c.influxSampleToSample pf r).2 = some s) :
    (c.latestMeasurements.lookup s.Area = none →
      (c.Observe pf [r]).latestMeasurements.lookup s.Area = some s) ∧
    (∀ cur : sample, c.latestMeasurements.lookup s.Area = some cur →
      (cur.Time < s.Time → (c.Observe pf [r]).latestMeasurements.lookup s.Area = some s) ∧
      (¬ cur.Time < s.Time → (c.Observe pf [r]).latestMeasurements = c.latestMeasurements)) ∧
    (∀ a : GoString, a ≠ s.Area →
      (c.Observe pf [r]).latestMeasurements.lookup a = c.latestMeasurements.lookup a) := by
  rw [Observe_singleton, (observeOne_some pf c r s hs).1]
  refine ⟨?_, ?_, ?_⟩
  · intro h0
    unfold reconcile
    rw [h0]
    exact AList.lookup_insert _
  · intro cur hcur
    unfold reconcile
    rw [hcur]
    constructor
    · intro hlt
      simp only [if_pos hlt]
      exact AList.lookup_insert _
    · intro hge
      simp only [if_neg hge]
  · intro a ha
    exact reconcile_lookup_ne _ s a ha

/-- The rule of C1 at a concrete store: a sample at time 5 replaces the stored
sample of time 3 of its area. -/
theorem Observe_latest_rule_witness :
    (((NewCollector kitchenMap).Observe digitsParseFloat [mkRecord 3 "1" "50" "10" "1"]).Observe
        digitsParseFloat [mkRecord 5 "1" "60" "20" "1"]).latestMeasurements.lookup
        (gostr "kitchen") =
      some ⟨5, (gostr "kitchen"), ⟨60⟩, ⟨20⟩, ⟨1⟩⟩ :=
  ((Observe_latest_rule digitsParseFloat
      ((NewCollector kitchenMap).Observe digitsParseFloat [mkRecord 3 "1" "50" "10" "1"])
      (mkRecord 5 "1" "60" "20" "1") ⟨5, (gostr "kitchen"), ⟨60⟩, ⟨20⟩, ⟨1⟩⟩ (by decide)).2.1
      ⟨3, (gostr "kitchen"), ⟨50⟩, ⟨10⟩, ⟨1⟩⟩ (by decide)).1 (by decide)

/-! ## Batches -/

theorem observeOne_areaMap (pf : GoString → Option float64) (c : Collector) (r : InfluxSample) :
    (c.observeOne pf r).areaMap = c.areaMap := by
  unfold Collector.observeOne
  rcases influx_cases pf c r with h | ⟨s, -, -, h⟩
  · rw [h]; rfl
  · rw [h]
    simp only [Collector.countOne]
    split
    · rfl
    · split <;> rfl

theorem samplesOf_congr (pf : GoString → Option float64) (c c1 : Collector)
    (h : c.areaMap = c1.areaMap) (rs : List InfluxSample) :
    c.samplesOf pf rs = c1.samplesOf pf rs := by
  unfold Collector.samplesOf
  congr 1
  funext r
  exact influx_snd_congr pf c c1 r h

theorem samplesOf_cons_some (pf : GoString → Option float64) (c : Collector) (r : InfluxSample)
    (rs : List InfluxSample) (s : sample) (h : (c.influxSampleToSample pf r).2 = some s) :
    c.samplesOf pf (r :: rs) = s :: c.samplesOf pf rs := by
  unfold Collector.samplesOf
  exact List.filterMap_cons_some (f := fun r => (c.influxSampleToSample pf r).2) h

theorem samplesOf_cons_none (pf : GoString → Option float64) (c : Collector) (r : InfluxSample)
    (rs : List InfluxSample) (h : (c.influxSampleToSample pf r).2 = none) :
    c.samplesOf pf (r :: rs) = c.samplesOf pf rs := by
  unfold Collector.samplesOf
  exact List.filterMap_cons_none (f := fun r => (c.influxSampleToSample pf r).2) h

/-- The table of latest samples after a batch is the table before it with the
samples of the batch reconciled into it one after the other. -/
theorem Observe_latest (pf : GoString → Option float64) (rs : List InfluxSample) :
    ∀ c : Collector, (c.Observe pf rs).latestMeasurements =
      (c.samplesOf pf rs).foldl reconcile c.latestMeasurements := by
  induction rs with
  | nil => intro c; rfl
  | cons r rs ih =>
    intro c
    rw [Observe_cons, ih, ← samplesOf_congr pf c _ (observeOne_areaMap pf c r).symm]
    rcases h : (c.influxSampleToSample pf r).2 with _ | s
    · rw [samplesOf_cons_none pf c r rs h, observeOne_none pf c r h]
      rfl
    · rw [samplesOf_cons_some pf c r rs s h, (observeOne_some pf c r s h).1]
      rfl

theorem reconcile_lookup_none (latest : GoMap sample) (s : sample)
    (h : latest.lookup s.Area = none) : (reconcile latest s).lookup s.Area = some s := by
  unfold reconcile
  rw [h]
  exact AList.lookup_insert _

theorem reconcile_lookup_newer (latest : GoMap sample) (s cur : sample)
    (h : latest.lookup s.Area = some cur) (hlt : cur.Time < s.Time) :
    (reconcile latest s).lookup s.Area = some s := by
  unfold reconcile
  rw [h]
  simp only [if_pos hlt]
  exact AList.lookup_insert _

theorem reconcile_not_newer (latest : GoMap sample) (s cur : sample)
    (h : latest.lookup s.Area = some cur) (hge : ¬ cur.Time < s.Time) :
    reconcile latest s = latest := by
  unfold reconcile
  rw [h]
  simp only [if_neg hge]

/-- Reconciling samples of one area into a table that holds `cur` for it: either
none of them is newer than `cur`, which stays, or the first of those with
the greatest time is stored. -/
theorem foldl_reconcile_some (A : GoString) (ss : List sample) :
    ∀ (latest : GoMap sample) (cur : sample), latest.lookup A = some cur →
      (∀ s ∈ ss, s.Area = A) →
      ((ss.foldl reconcile latest).lookup A = some cur ∧ ∀ q ∈ ss, q.Time ≤ cur.Time) ∨
      ∃ pre x post, ss = pre ++ x :: post ∧ cur.Time < x.Time ∧
        (∀ p ∈ pre, p.Time < x.Time) ∧ (∀ q ∈ post, q.Time ≤ x.Time) ∧
        (ss.foldl reconcile latest).lookup A = some x := by
  induction ss with
  | nil =>
    intro latest cur hcur _
    exact Or.inl ⟨hcur, by simp⟩
  | cons s t ih =>
    intro latest cur hcur hA
    have hsA : s.Area = A := hA s (List.mem_cons_self _ _)
    have htA : ∀ q ∈ t, q.Area = A := fun q hq => hA q (List.mem_cons_of_mem _ hq)
    rw [List.foldl_cons]
    rw [← hsA] at hcur
    by_cases hlt : cur.Time < s.Time
    · have hs : (reconcile latest s).lookup A = some s := by
        rw [← hsA]; exact reconcile_lookup_newer latest s cur hcur hlt
      rcases ih (reconcile latest s) s hs htA with ⟨hfin, hle⟩ | ⟨pre, x, post, he, hx, hpre, hpost, hfin⟩
      · exact Or.inr ⟨[], s, t, rfl, hlt, by simp, hle, hfin⟩
      · refine Or.inr ⟨s :: pre, x, post, by rw [he]; rfl, lt_trans hlt hx, ?_, hpost, hfin⟩
        intro p hp
        rcases List.mem_cons.mp hp with rfl | hp
        · exact hx
        · exact hpre p hp
    · rw [reconcile_not_newer latest s cur hcur hlt]
      rw [hsA] at hcur
      rcases ih latest cur hcur htA with ⟨hfin, hle⟩ | ⟨pre, x, post, he, hx, hpre, hpost, hfin⟩
      · refine Or.inl ⟨hfin, ?_⟩
        intro q hq
        rcases List.mem_cons.mp hq with rfl | hq
        · exact not_lt.mp hlt
        · exact hle q hq
      · refine Or.inr ⟨s :: pre, x, post, by rw [he]; rfl, hx, ?_, hpost, hfin⟩
        intro p hp
        rcases List.mem_cons.mp hp with rfl | hp
        · exact lt_of_le_of_lt (not_lt.mp hlt) hx
        · exact hpre p hp

/-- Reconciling a non-empty list of samples of one area into a table with no
entry for it stores the first of those with the greatest time. -/
theorem foldl_reconcile_none (A : GoString) (ss : List sample) (latest : GoMap sample)
    (h0 : latest.lookup A = none) (hA : ∀ s ∈ ss, s.Area = A) (hne : ss ≠ []) :
    ∃ pre x post, ss = pre ++ x :: post ∧
      (∀ p ∈ pre, p.Time < x.Time) ∧ (∀ q ∈ post, q.Time ≤ x.Time) ∧
      (ss.foldl reconcile latest).lookup A = some x := by
  cases ss with
  | nil => exact absurd rfl hne
  | cons s t =>
    have hsA : s.Area = A := hA s (List.mem_cons_self _ _)
    have htA : ∀ q ∈ t, q.Area = A := fun q hq => hA q (List.mem_cons_of_mem _ hq)
    have hs : (reconcile latest s).lookup A = some s := by
      rw [← hsA]; exact reconcile_lookup_none latest s (by rw [hsA]; exact h0)
    rw [List.foldl_cons]
    rcases foldl_reconcile_some A t (reconcile latest s) s hs htA with
      ⟨hfin, hle⟩ | ⟨pre, x, post, he, hx, hpre, hpost, hfin⟩
    · exact ⟨[], s, t, rfl, by simp, hle, hfin⟩
    · refine ⟨s :: pre, x, post, by rw [he]; rfl, ?_, hpost, hfin⟩
      intro p hp
      rcases List.mem_cons.mp hp with rfl | hp
      · exact hx
      · exact hpre p hp

theorem samplesOf_area (pf : GoString → Option float64) (c : Collector) (A : GoString)
    (rs : List InfluxSample)
    (hv : ∀ r ∈ rs, ∃ s, (c.influxSampleToSample pf r).2 = some s ∧ s.Area = A) :
    ∀ s ∈ c.samplesOf pf rs, s.Area = A := by
  intro s hs
  unfold Collector.samplesOf at hs
  rcases List.mem_filterMap.mp hs with ⟨r, hr, hrs⟩
  rcases hv r hr with ⟨s1, h1, hA⟩
  rw [h1] at hrs
  cases hrs
  exact hA

theorem samplesOf_length (pf : GoString → Option float64) (c : Collector) (A : GoString)
    (rs : List InfluxSample)
    (hv : ∀ r ∈ rs, ∃ s, (c.influxSampleToSample pf r).2 = some s ∧ s.Area = A) :
    (c.samplesOf pf rs).length = rs.length := by
  induction rs with
  | nil => rfl
  | cons r rs ih =>
    rcases hv r (List.mem_cons_self _ _) with ⟨s, hs, -⟩
    rw [samplesOf_cons_some pf c r rs s hs, List.length_cons, List.length_cons,
      ih (fun q hq => hv q (List.mem_cons_of_mem _ hq))]

/-- From a store with no entry for `A`, a non-empty batch of valid samples for
`A` leaves the first sample of greatest time as the latest of `A`. -/
theorem Observe_first_maximum (pf : GoString → Option float64) (c : Collector) (A : GoString)
    (h0 : c.latestMeasurements.lookup A = none) (rs : List InfluxSample) (hne : rs ≠ [])
    (hv : ∀ r ∈ rs, ∃ s, (c.influxSampleToSample pf r).2 = some s ∧ s.Area = A) :
    ∃ pre x post, c.samplesOf pf rs = pre ++ x :: post ∧
      (∀ p ∈ pre, p.Time < x.Time) ∧ (∀ q ∈ post, q.Time ≤ x.Time) ∧
      (c.Observe pf rs).latestMeasurements.lookup A = some x := by
  rw [Observe_latest]
  apply foldl_reconcile_none A _ _ h0 (samplesOf_area pf c A rs hv)
  intro he
  have hl := samplesOf_length pf c A rs hv
  rw [he] at hl
  exact hne (List.length_eq_zero.mp hl.symm)

/-- C2: from a store with no entry for the area `A`, a non-empty batch of valid
samples for `A` leaves as the latest of `A` the earliest-arriving sample among
those of greatest time (every sample before it is strictly older, none after
it is newer); when the times are pairwise distinct every reordering of the
batch leaves the same latest, the sample of greatest time; and a batch with
the times 1, 2, 1 leaves its second sample. -/
theorem Observe_first_of_latest_time (pf : GoString → Option float64) (c : Collector)
    (A : GoString) (h0 : c.latestMeasurements.lookup A = none) :
    (∀ rs : List InfluxSample, rs ≠ [] →
      (∀ r ∈ rs, ∃ s, (c.influxSampleToSample pf r).2 = some s ∧ s.Area = A) →
      ∃ pre x post, c.samplesOf pf rs = pre ++ x :: post ∧
        (∀ p ∈ pre, p.Time < x.Time) ∧ (∀ q ∈ post, q.Time ≤ x.Time) ∧
        (c.Observe pf rs).latestMeasurements.lookup A = some x) ∧
    (∀ rs rs1 : List InfluxSample, rs ≠ [] →
      (∀ r ∈ rs, ∃ s, (c.influxSampleToSample pf r).2 = some s ∧ s.Area = A) →
      ((c.samplesOf pf rs).map sample.Time).Nodup → rs.Perm rs1 →
      (c.Observe pf rs1).latestMeasurements.lookup A =
          (c.Observe pf rs).latestMeasurements.lookup A ∧
        ∃ x ∈ c.samplesOf pf rs, (∀ s ∈ c.samplesOf pf rs, s.Time ≤ x.Time) ∧
          (c.Observe pf rs).latestMeasurements.lookup A = some x) ∧
    (∀ (r1 r2 r3 : InfluxSample) (s1 s2 s3 : sample),
      (c.influxSampleToSample pf r1).2 = some s1 → (c.influxSampleToSample pf r2).2 = some s2 →
      (c.influxSampleToSample pf r3).2 = some s3 →
      s1.Area = A → s2.Area = A → s3.Area = A → s1.Time = 1 → s2.Time = 2 → s3.Time = 1 →
      (c.Observe pf [r1, r2, r3]).latestMeasurements.lookup A = some s2) := by
  have key : ∀ rs : List InfluxSample, rs ≠ [] →
      (∀ r ∈ rs, ∃ s, (c.influxSampleToSample pf r).2 = some s ∧ s.Area = A) →
      ∃ x ∈ c.samplesOf pf rs, (∀ s ∈ c.samplesOf pf rs, s.Time ≤ x.Time) ∧
        (c.Observe pf rs).latestMeasurements.lookup A = some x := by
    intro rs hne hv
    rcases Observe_first_maximum pf c A h0 rs hne hv with ⟨pre, x, post, he, hpre, hpost, hfin⟩
    refine ⟨x, by rw [he]; simp, ?_, hfin⟩
    intro s hs
    rw [he] at hs
    rcases List.mem_append.mp hs with hs | hs
    · exact le_of_lt (hpre s hs)
    · rcases List.mem_cons.mp hs with rfl | hs
      · exact le_refl _
      · exact hpost s hs
  refine ⟨fun rs hne hv => Observe_first_maximum pf c A h0 rs hne hv, ?_, ?_⟩
  · intro rs rs1 hne hv hnd hperm
    have hne1 : rs1 ≠ [] := fun h => hne (List.Perm.eq_nil (h ▸ hperm))
    have hv1 : ∀ r ∈ rs1, ∃ s, (c.influxSampleToSample pf r).2 = some s ∧ s.Area = A :=
      fun r hr => hv r (hperm.mem_iff.mpr hr)
    have hps : (c.samplesOf pf rs).Perm (c.samplesOf pf rs1) := List.Perm.filterMap _ hperm
    rcases key rs hne hv with ⟨x, hx, hmax, hfin⟩
    rcases key rs1 hne1 hv1 with ⟨y, hy, hmax1, hfin1⟩
    have hyx : y.Time ≤ x.Time := hmax y (hps.mem_iff.mpr hy)
    have hxy : x.Time ≤ y.Time := hmax1 x (hps.mem_iff.mp hx)
    have heq : y = x :=
      List.inj_on_of_nodup_map hnd (hps.mem_iff.mpr hy) hx (le_antisymm hyx hxy)
    refine ⟨?_, x, hx, hmax, hfin⟩
    rw [hfin1, hfin, heq]
  · intro r1 r2 r3 s1 s2 s3 h1 h2 h3 a1 a2 a3 t1 t2 t3
    rw [Observe_latest, samplesOf_cons_some pf c r1 _ s1 h1, samplesOf_cons_some pf c r2 _ s2 h2,
      samplesOf_cons_some pf c r3 _ s3 h3]
    have e0 : c.samplesOf pf [] = [] := rfl
    rw [e0]
    simp only [List.foldl_cons, List.foldl_nil]
    have l1 : (reconcile c.latestMeasurements s1).lookup s2.Area = some s1 := by
      rw [a2, ← a1]; exact reconcile_lookup_none _ s1 (by rw [a1]; exact h0)
    have l2 : (reconcile (reconcile c.latestMeasurements s1) s2).lookup s3.Area = some s2 := by
      rw [a3, ← a2]; exact reconcile_lookup_newer _ s2 s1 l1 (by rw [t1, t2]; decide)
    rw [reconcile_not_newer _ s3 s2 l2 (by rw [t2, t3]; decide), ← a3]
    exact l2

/-- The batch with the times 1, 2, 1 for the id `1`, observed by a fresh
collector, leaves the sample of time 2 stored for `kitchen`. -/
theorem Observe_first_of_latest_time_witness :
    ((NewCollector kitchenMap).Observe digitsParseFloat
        [mkRecord 1 "1" "50" "10" "1", mkRecord 2 "1" "60" "20" "1",
          mkRecord 1 "1" "70" "30" "1"]).latestMeasurements.lookup (gostr "kitchen") =
      some ⟨2, (gostr "kitchen"), ⟨60⟩, ⟨20⟩, ⟨1⟩⟩ :=
  (Observe_first_of_latest_time digitsParseFloat (NewCollector kitchenMap) (gostr "kitchen")
    (by decide)).2.2 (mkRecord 1 "1" "50" "10" "1") (mkRecord 2 "1" "60" "20" "1")
    (mkRecord 1 "1" "70" "30" "1") ⟨1, (gostr "kitchen"), ⟨50⟩, ⟨10⟩, ⟨1⟩⟩
    ⟨2, (gostr "kitchen"), ⟨60⟩, ⟨20⟩, ⟨1⟩⟩ ⟨1, (gostr "kitchen"), ⟨70⟩, ⟨30⟩, ⟨1⟩⟩
    (by decide) (by decide) (by decide) rfl rfl rfl rfl rfl rfl

/-! ## Counting -/

theorem addOne_of_lt (n : Nat) (h : n < 9007199254740992) : float64.addOne n = n + 1 := by
  unfold float64.addOne
  rw [if_pos h]

theorem addOne_pos (n : Nat) : 1 ≤ float64.addOne n := by
  unfold float64.addOne
  split_ifs <;> omega

theorem iterate_addOne (k : Nat) :
    ∀ n : Nat, n + k ≤ 9007199254740992 → float64.addOne^[k] n = n + k := by
  induction k with
  | zero => intro n _; rfl
  | succ k ih =>
    intro n h
    rw [Function.iterate_succ_apply, addOne_of_lt n (by omega), ih (n + 1) (by omega)]
    omega

theorem nextTotal_eq (totals : GoMap Nat) (area : GoString) :
    nextTotal totals area = float64.addOne ((totals.lookup area).getD 0) := by
  unfold nextTotal
  rcases totals.lookup area with _ | n
  · rfl
  · rfl

theorem normalizesTo_congr (pf : GoString → Option float64) (c c1 : Collector) (A : GoString)
    (h : c.areaMap = c1.areaMap) : c.normalizesTo pf A = c1.normalizesTo pf A := by
  funext r
  unfold Collector.normalizesTo
  rw [influx_snd_congr pf c c1 r h]

theorem observeOne_total (pf : GoString → Option float64) (c : Collector) (A : GoString)
    (r : InfluxSample) :
    (c.observeOne pf r).total A =
      if c.normalizesTo pf A r = true then float64.addOne (c.total A) else c.total A := by
  unfold Collector.total Collector.normalizesTo
  rcases h : (c.influxSampleToSample pf r).2 with _ | s
  · rw [observeOne_none pf c r h]
    simp [Collector.discardOne]
  · rw [(observeOne_some pf c r s h).2.1]
    by_cases hA : s.Area = A
    · subst hA
      rw [AList.lookup_insert, nextTotal_eq]
      simp
    · rw [AList.lookup_insert_ne (Ne.symm hA)]
      simp [hA]

/-- A batch applies the increment to the count of an area once for each of its
records that normalises to that area. -/
theorem Observe_total (pf : GoString → Option float64) (A : GoString) (rs : List InfluxSample) :
    ∀ c : Collector, (c.Observe pf rs).total A =
      float64.addOne^[rs.countP (c.normalizesTo pf A)] (c.total A) := by
  induction rs with
  | nil => intro c; rfl
  | cons r rs ih =>
    intro c
    rw [Observe_cons, ih, observeOne_total,
      ← normalizesTo_congr pf c _ A (observeOne_areaMap pf c r).symm, List.countP_cons]
    by_cases hn : c.normalizesTo pf A r = true
    · rw [if_pos hn, if_pos hn, Function.iterate_succ_apply]
    · rw [if_neg hn, if_neg hn]
      rfl

/-- C3, as the code has it: a batch applies the `float64` increment to
`totalMeasurements[A]` exactly once for each of its records that normalises to
the area `A`, whatever their times and whatever happens to the stored latest;
as long as the count stays within `2^53` this raises it by exactly the number
of those records, so from a store with no count for `A` a non-empty batch of
`N ≤ 2^53` valid samples for `A` leaves the count `N`. -/
theorem Observe_total_accounting (pf : GoString → Option float64) (c : Collector) (A : GoString)
    (rs : List InfluxSample) :
    (c.Observe pf rs).total A =
      float64.addOne^[rs.countP (c.normalizesTo pf A)] (c.total A) ∧
    (c.total A + rs.countP (c.normalizesTo pf A) ≤ 9007199254740992 →
      (c.Observe pf rs).total A = c.total A + rs.countP (c.normalizesTo pf A)) ∧
    (c.totalMeasurements.lookup A = none → rs ≠ [] → rs.length ≤ 9007199254740992 →
      (∀ r ∈ rs, c.normalizesTo pf A r = true) →
      (c.Observe pf rs).totalMeasurements.lookup A = some rs.length) := by
  have ht := Observe_total pf A rs c
  refine ⟨ht, ?_, ?_⟩
  · intro hb
    rw [ht, iterate_addOne _ _ hb]
  · intro h0 hne hlen hv
    have hall : rs.countP (c.normalizesTo pf A) = rs.length := by
      rw [List.countP_eq_length]
      exact hv
    have h00 : c.total A = 0 := by
      unfold Collector.total
      rw [h0]
      rfl
    rw [hall, h00, iterate_addOne _ _ (by omega)] at ht
    unfold Collector.total at ht
    have hpos : 0 < rs.length := List.length_pos.mpr hne
    rcases hl : (c.Observe pf rs).totalMeasurements.lookup A with _ | n
    · rw [hl] at ht
      simp at ht
      omega
    · rw [hl] at ht
      simp at ht
      rw [ht]

/-- Three valid samples for the id `1`, the last two not newer than the
first, observed by a fresh collector, leave the count 3 for `kitchen`. -/
theorem Observe_total_accounting_witness :
    ((NewCollector kitchenMap).Observe digitsParseFloat
        [mkRecord 2 "1" "50" "10" "1", mkRecord 1 "1" "60" "20" "1",
          mkRecord 2 "1" "70" "30" "1"]).totalMeasurements.lookup (gostr "kitchen") = some 3 :=
  (Observe_total_accounting digitsParseFloat (NewCollector kitchenMap) (gostr "kitchen")
    [mkRecord 2 "1" "50" "10" "1", mkRecord 1 "1" "60" "20" "1",
      mkRecord 2 "1" "70" "30" "1"]).2.2 (by decide) (List.cons_ne_nil _ _) (by decide)
    (by decide)

/-- A valid sample for `kitchen`, newer than the stored one, observed by a
collector whose count for `kitchen` is `2^53`, leaves that count at `2^53`: the
count does not rise by one. -/
theorem Observe_total_absorbed :
    saturatedCollector.normalizesTo digitsParseFloat (gostr "kitchen")
      (mkRecord 5 "1" "60" "20" "1") = true ∧
    saturatedCollector.total (gostr "kitchen") = 9007199254740992 ∧
    (saturatedCollector.Observe digitsParseFloat [mkRecord 5 "1" "60" "20" "1"]).total
      (gostr "kitchen") = 9007199254740992 := by
  decide

/-! ## `Collect` -/

theorem secondsLT_Sub (now t : Int) :
    time.secondsLT (time.Sub now t) 300 = true ↔ now - t < 300 * time.Second := by
  unfold time.secondsLT time.Sub time.minDuration time.maxDuration time.Second
  rw [decide_eq_true_eq]
  by_cases h1 : now - t < -9223372036854775808
  · rw [if_pos h1]
    constructor
    · intro _
      omega
    · intro _
      norm_num
  · rw [if_neg h1]
    by_cases h2 : 9223372036854775807 < now - t
    · rw [if_pos h2]
      constructor
      · intro h
        norm_num at h
      · intro _
        omega
    · rw [if_neg h2]

theorem MustNewConstMetric_valid (desc : prometheus.Desc) (vt : prometheus.ValueType)
    (v : prometheus.Value) (area : GoString) (hl : desc.variableLabels.length = 1)
    (hv : utf8.ValidString area = true) :
    prometheus.MustNewConstMetric desc vt v [area] =
      some { desc := desc, valueType := vt, value := v, labelValues := [area] } := by
  unfold prometheus.MustNewConstMetric
  rw [if_pos]
  refine ⟨by rw [hl]; rfl, ?_⟩
  simp [hv]

theorem MustNewConstMetric_invalid (desc : prometheus.Desc) (vt : prometheus.ValueType)
    (v : prometheus.Value) (area : GoString) (hv : utf8.ValidString area = false) :
    prometheus.MustNewConstMetric desc vt v [area] = none := by
  unfold prometheus.MustNewConstMetric
  rw [if_neg]
  rintro ⟨-, h⟩
  simp [hv] at h

theorem MustNewConstMetric_some (desc : prometheus.Desc) (vt : prometheus.ValueType)
    (v : prometheus.Value) (labels : List GoString) (m : prometheus.Metric)
    (h : prometheus.MustNewConstMetric desc vt v labels = some m) :
    m = { desc := desc, valueType := vt, value := v, labelValues := labels } := by
  unfold prometheus.MustNewConstMetric at h
  split_ifs at h
  simp only [Option.some.injEq] at h
  exact h.symm

theorem descsBuilt_lengths (c : Collector) (hd : c.descsBuilt) :
    c.Temperature.variableLabels.length = 1 ∧ c.Humidity.variableLabels.length = 1 ∧
    c.Battery.variableLabels.length = 1 ∧ c.Measurements.variableLabels.length = 1 ∧
    c.DiscardedMeasurements.variableLabels.length = 0 := by
  obtain ⟨h1, h2, h3, h4, h5⟩ := hd
  rw [h1, h2, h3, h4, h5]
  exact ⟨rfl, rfl, rfl, rfl, rfl⟩

theorem collectTotals_built (c : Collector) (hd : c.descsBuilt)
    (entries : List (Sigma (fun _ : GoString => Nat)))
    (hv : ∀ e ∈ entries, utf8.ValidString e.1 = true) :
    c.collectTotals entries = some (entries.map (fun e => c.totalPoint e.1 e.2)) := by
  induction entries with
  | nil => rfl
  | cons e rest ih =>
    obtain ⟨area, n⟩ := e
    unfold Collector.collectTotals
    rw [ih (fun e he => hv e (List.mem_cons_of_mem _ he)),
      MustNewConstMetric_valid _ _ _ area (descsBuilt_lengths c hd).2.2.2.1
        (hv ⟨area, n⟩ (List.mem_cons_self _ _))]
    rfl

/-- An entry whose area is not valid UTF-8 makes the first loop of `Collect` panic. -/
theorem collectTotals_invalid (c : Collector)
    (entries : List (Sigma (fun _ : GoString => Nat)))
    (hv : ∃ e ∈ entries, utf8.ValidString e.1 = false) : c.collectTotals entries = none := by
  induction entries with
  | nil => simp at hv
  | cons e rest ih =>
    obtain ⟨area, n⟩ := e
    unfold Collector.collectTotals
    rcases hv with ⟨e1, he1, hbad⟩
    rcases List.mem_cons.mp he1 with rfl | hmem
    · rw [MustNewConstMetric_invalid _ _ _ area hbad]
    · rw [ih ⟨e1, hmem, hbad⟩]
      rcases prometheus.MustNewConstMetric c.Measurements .CounterValue (.count n) [area] with
        _ | m <;> rfl

theorem collectTotals_some (c : Collector) (entries : List (Sigma (fun _ : GoString => Nat))) :
    ∀ ms, c.collectTotals entries = some ms →
      ms = entries.map (fun e => c.totalPoint e.1 e.2) := by
  induction entries with
  | nil =>
    intro ms h
    simp only [Collector.collectTotals, Option.some.injEq] at h
    rw [← h]
    rfl
  | cons e rest ih =>
    obtain ⟨area, n⟩ := e
    intro ms h
    unfold Collector.collectTotals at h
    rcases hm : prometheus.MustNewConstMetric c.Measurements .CounterValue (.count n) [area] with
      _ | m
    · rw [hm] at h; simp at h
    · rcases hr : c.collectTotals rest with _ | tl
      · rw [hm, hr] at h; simp at h
      · rw [hm, hr] at h
        simp only [Option.some.injEq] at h
        rw [← h, MustNewConstMetric_some _ _ _ _ m hm, ih tl hr]
        rfl

theorem collectLatest_built (now : GoString → time.Time) (c : Collector) (hd : c.descsBuilt)
    (entries : List (Sigma (fun _ : GoString => sample)))
    (hv : ∀ e ∈ entries, utf8.ValidString e.1 = true) :
    c.collectLatest now entries =
      some ((entries.map (fun e =>
        if now e.1 - e.2.Time < 300 * time.Second then c.gaugePoints e.1 e.2 else [])).flatten) := by
  induction entries with
  | nil => rfl
  | cons e rest ih =>
    obtain ⟨area, s⟩ := e
    have hva := hv ⟨area, s⟩ (List.mem_cons_self _ _)
    obtain ⟨l1, l2, l3, -, -⟩ := descsBuilt_lengths c hd
    unfold Collector.collectLatest
    rw [ih (fun e he => hv e (List.mem_cons_of_mem _ he))]
    by_cases hf : now area - s.Time < 300 * time.Second
    · rw [if_pos ((secondsLT_Sub _ _).mpr hf), MustNewConstMetric_valid _ _ _ area l1 hva,
        MustNewConstMetric_valid _ _ _ area l2 hva, MustNewConstMetric_valid _ _ _ area l3 hva]
      simp [Collector.gaugePoints, hf]
    · rw [if_neg (fun h => hf ((secondsLT_Sub _ _).mp h))]
      simp [hf]

theorem collectLatest_some (now : GoString → time.Time) (c : Collector)
    (entries : List (Sigma (fun _ : GoString => sample))) :
    ∀ ms, c.collectLatest now entries = some ms →
      ms = (entries.map (fun e =>
        if now e.1 - e.2.Time < 300 * time.Second then c.gaugePoints e.1 e.2
        else [])).flatten := by
  induction entries with
  | nil =>
    intro ms h
    simp only [Collector.collectLatest, Option.some.injEq] at h
    rw [← h]
    rfl
  | cons e rest ih =>
    obtain ⟨area, s⟩ := e
    intro ms h
    unfold Collector.collectLatest at h
    by_cases hf : now area - s.Time < 300 * time.Second
    · rw [if_pos ((secondsLT_Sub _ _).mpr hf)] at h
      rcases h1 : prometheus.MustNewConstMetric c.Temperature .GaugeValue
        (.reading s.Temperature) [area] with _ | t
      · rw [h1] at h; simp at h
      rcases h2 : prometheus.MustNewConstMetric c.Humidity .GaugeValue
        (.reading s.Humidity) [area] with _ | hu
      · rw [h1, h2] at h; simp at h
      rcases h3 : prometheus.MustNewConstMetric c.Battery .GaugeValue
        (.reading s.Battery) [area] with _ | b
      · rw [h1, h2, h3] at h; simp at h
      rcases hr : c.collectLatest now rest with _ | tl
      · rw [h1, h2, h3, hr] at h; simp at h
      · rw [h1, h2, h3, hr] at h
        simp only [Option.some.injEq] at h
        rw [← h, MustNewConstMetric_some _ _ _ _ t h1, MustNewConstMetric_some _ _ _ _ hu h2,
          MustNewConstMetric_some _ _ _ _ b h3, ih tl hr]
        simp [Collector.gaugePoints, hf]
    · rw [if_neg (fun h => hf ((secondsLT_Sub _ _).mp h))] at h
      rw [ih ms h]
      simp [hf]

/-- The points `Collect` sends for a collector with the descriptors of
`NewCollector` whose areas are valid UTF-8: the totals, the discarded count,
the gauges of the recent entries. -/
theorem Collect_built (now : GoString → time.Time) (c : Collector) (hd : c.descsBuilt)
    (hv : c.labelsValid) :
    c.Collect now =
      some (c.totalMeasurements.entries.map (fun e => c.totalPoint e.1 e.2) ++
        c.discardedPoint ::
        (c.latestMeasurements.entries.map (fun e =>
          if now e.1 - e.2.Time < 300 * time.Second then c.gaugePoints e.1 e.2 else [])).flatten) := by
  unfold Collector.Collect
  rw [collectTotals_built c hd _ (fun e he => hv.1 e.1 (List.mem_keys_of_mem he)),
    collectLatest_built now c hd _ (fun e he => hv.2 e.1 (List.mem_keys_of_mem he))]
  simp [prometheus.MustNewConstMetric, hd.2.2.2.2, NewCollector, prometheus.NewDesc,
    Collector.discardedPoint]

/-- Whenever `Collect` returns, the points it has sent are the totals, the
discarded count and the gauges of the recent entries. -/
theorem Collect_some (now : GoString → time.Time) (c : Collector)
    (out : List prometheus.Metric) (h : c.Collect now = some out) :
    out = c.totalMeasurements.entries.map (fun e => c.totalPoint e.1 e.2) ++
        c.discardedPoint ::
        (c.latestMeasurements.entries.map (fun e =>
          if now e.1 - e.2.Time < 300 * time.Second then c.gaugePoints e.1 e.2 else [])).flatten := by
  unfold Collector.Collect at h
  rcases h1 : c.collectTotals c.totalMeasurements.entries with _ | totals
  · rw [h1] at h; simp at h
  rcases h2 : prometheus.MustNewConstMetric c.DiscardedMeasurements .CounterValue
    (.count c.discardedMeasurements) [] with _ | d
  · rw [h1, h2] at h; simp at h
  rcases h3 : c.collectLatest now c.latestMeasurements.entries with _ | latest
  · rw [h1, h2, h3] at h; simp at h
  rw [h1, h2, h3] at h
  simp only [Option.some.injEq] at h
  rw [← h, collectTotals_some c _ totals h1, MustNewConstMetric_some _ _ _ _ d h2,
    collectLatest_some now c _ latest h3]
  rfl

/-- An area of the totals table that is not valid UTF-8 makes `Collect` panic. -/
theorem Collect_invalid (now : GoString → time.Time) (c : Collector)
    (hv : ∃ a ∈ c.totalMeasurements.keys, utf8.ValidString a = false) :
    c.Collect now = none := by
  unfold Collector.Collect
  rcases hv with ⟨a, ha, hbad⟩
  rcases List.mem_keys.mp ha with ⟨n, hn⟩
  rw [collectTotals_invalid c _ ⟨⟨a, n⟩, hn, hbad⟩]

/-- Every point of the gauge part of an export is a gauge point of a recent
entry of the table of latest samples. -/
theorem mem_gauges (now : GoString → time.Time) (c : Collector) (m : prometheus.Metric)
    (hm : m ∈ (c.latestMeasurements.entries.map (fun e =>
      if now e.1 - e.2.Time < 300 * time.Second then c.gaugePoints e.1 e.2 else [])).flatten) :
    ∃ area s, c.latestMeasurements.lookup area = some s ∧
      now area - s.Time < 300 * time.Second ∧ m ∈ c.gaugePoints area s := by
  rcases List.mem_flatten.mp hm with ⟨l, hl, hml⟩
  rcases List.mem_map.mp hl with ⟨e, he, rfl⟩
  obtain ⟨area, s⟩ := e
  by_cases hf : now area - s.Time < 300 * time.Second
  · rw [if_pos hf] at hml
    exact ⟨area, s, AList.mem_lookup_iff.mpr he, hf, hml⟩
  · rw [if_neg hf] at hml
    exact absurd hml (List.not_mem_nil _)

theorem Split_ne_nil (sep : byte) (s : GoString) : strings.Split s sep ≠ [] := by
  cases s with
  | nil => simp [strings.Split]
  | cons c cs =>
    unfold strings.Split
    by_cases h : c = sep
    · simp [h]
    · rw [if_neg h]
      split <;> simp

theorem Split_nil (sep : byte) : strings.Split [] sep = [[]] := by
  unfold strings.Split
  rfl

theorem Split_cons_sep (sep : byte) (cs : GoString) :
    strings.Split (sep :: cs) sep = [] :: strings.Split cs sep := by
  rw [strings.Split, if_pos rfl]

theorem Split_cons_ne (sep c : byte) (cs piece : GoString) (pieces : List GoString)
    (h : c ≠ sep) (hs : strings.Split cs sep = piece :: pieces) :
    strings.Split (c :: cs) sep = (c :: piece) :: pieces := by
  rw [strings.Split, if_neg h, hs]

/-- Splitting a text that has a separator in the middle gives the pieces of the
part before it followed by the pieces of the part after it. -/
theorem Split_append (sep : byte) (a b : GoString) :
    strings.Split (a ++ sep :: b) sep = strings.Split a sep ++ strings.Split b sep := by
  induction a with
  | nil => rw [List.nil_append, Split_cons_sep, Split_nil]; rfl
  | cons c a ih =>
    rw [List.cons_append]
    by_cases h : c = sep
    · subst h
      rw [Split_cons_sep, Split_cons_sep, ih]
      rfl
    · rcases hs : strings.Split a sep with _ | ⟨piece, pieces⟩
      · exact absurd hs (Split_ne_nil sep a)
      · rw [Split_cons_ne sep c a piece pieces h hs,
          Split_cons_ne sep c (a ++ sep :: b) piece (pieces ++ strings.Split b sep) h
            (by rw [ih, hs]; rfl)]
        rfl

theorem cutAfter_none (sep : byte) (s : GoString) (h : sep ∉ s) :
    strings.cutAfter sep s = none := by
  induction s with
  | nil => rfl
  | cons c cs ih =>
    unfold strings.cutAfter
    have hc : ¬ c = sep := fun e => h (e ▸ List.mem_cons_self _ _)
    rw [if_neg hc, ih (fun hm => h (List.mem_cons_of_mem _ hm))]
    rfl

theorem cutAfter_some (s : GoString) (h : (byteOf ',') ∈ s) :
    strings.cutAfter (byteOf ',') s =
      some (s.takeWhile (fun x => x != byteOf ',') ++ [(byteOf ',')], restOfLine s) := by
  induction s with
  | nil => simp at h
  | cons c cs ih =>
    unfold strings.cutAfter restOfLine
    by_cases hc : c = (byteOf ',')
    · subst hc
      simp
    · rw [if_neg hc]
      have hm : (byteOf ',') ∈ cs := by
        rcases List.mem_cons.mp h with e | hm
        · exact absurd e.symm hc
        · exact hm
      rw [ih hm]
      simp [hc, restOfLine]

theorem SplitAfterN_two (s : GoString) :
    strings.SplitAfterN s (byteOf ',') 2 =
      if (byteOf ',') ∈ s then [s.takeWhile (fun x => x != byteOf ',') ++ [(byteOf ',')], restOfLine s] else [s] := by
  unfold strings.SplitAfterN
  by_cases h : (byteOf ',') ∈ s
  · rw [cutAfter_some s h, if_pos h]
    rfl
  · rw [cutAfter_none (byteOf ',') s h, if_neg h]

theorem length_eq_two_iff (l : List GoString) : l.length = 2 ↔ ∃ a b, l = [a, b] := by
  constructor
  · intro h
    match l, h with
    | [a, b], _ => exact ⟨a, b, rfl⟩
  · rintro ⟨a, b, rfl⟩
    rfl

theorem keyValueOf_of_length (pair : GoString) (h : (strings.Split pair (byteOf '=')).length = 2) :
    ∃ key value, strings.Split pair (byteOf '=') = [key, value] ∧ keyValueOf pair = some (key, value) := by
  rcases (length_eq_two_iff _).mp h with ⟨key, value, hs⟩
  refine ⟨key, value, hs, ?_⟩
  unfold keyValueOf
  rw [hs]

/-- When every non-empty pair splits on `=` into two tokens, the loop over the
pairs stores them all, in order. -/
theorem parsePairs_ok (l : List GoString) :
    ∀ m : GoMap GoString, (∀ pair ∈ l, pair ≠ [] → (strings.Split pair (byteOf '=')).length = 2) →
      parsePairs l m = .ok (((l.filter (fun pair => decide (pair ≠ []))).filterMap
        keyValueOf).foldl (fun m p => m.insert p.1 p.2) m) := by
  induction l with
  | nil => intro m _; rfl
  | cons pair rest ih =>
    intro m h
    have hrest : ∀ p ∈ rest, p ≠ [] → (strings.Split p (byteOf '=')).length = 2 :=
      fun p hp => h p (List.mem_cons_of_mem _ hp)
    unfold parsePairs
    by_cases hp : pair ≠ []
    · rcases keyValueOf_of_length pair (h pair (List.mem_cons_self _ _) hp) with
        ⟨key, value, hs, hkv⟩
      rw [if_pos hp, hs]
      simp only []
      rw [ih _ hrest, List.filter_cons_of_pos (by simpa using hp),
        List.filterMap_cons_some hkv, List.foldl_cons]
    · rw [if_neg hp, ih _ hrest, List.filter_cons_of_neg (by simpa using hp)]

/-- When some non-empty pair does not split on `=` into two tokens, the loop
over the pairs fails. -/
theorem parsePairs_error (l : List GoString) :
    ∀ m : GoMap GoString, (∃ pair ∈ l, pair ≠ [] ∧ (strings.Split pair (byteOf '=')).length ≠ 2) →
      ∃ e, parsePairs l m = .error e := by
  induction l with
  | nil => intro m h; simp at h
  | cons pair rest ih =>
    intro m h
    unfold parsePairs
    by_cases hp : pair ≠ []
    · rw [if_pos hp]
      by_cases h2 : (strings.Split pair (byteOf '=')).length = 2
      · rcases (length_eq_two_iff _).mp h2 with ⟨key, value, hs⟩
        rw [hs]
        simp only []
        apply ih
        rcases h with ⟨q, hq, hq1, hq2⟩
        rcases List.mem_cons.mp hq with rfl | hq
        · exact absurd h2 hq2
        · exact ⟨q, hq, hq1, hq2⟩
      · split
        · rename_i key value hs
          rw [hs] at h2
          exact absurd rfl h2
        · exact ⟨_, rfl⟩
    · rw [if_neg hp]
      apply ih
      rcases h with ⟨q, hq, hq1, hq2⟩
      rcases List.mem_cons.mp hq with rfl | hq
      · exact absurd hq1 hp
      · exact ⟨q, hq, hq1, hq2⟩

theorem pairSegments_of_split (line metadataPairs valuePairs : GoString)
    (h : strings.Split (restOfLine line) (byteOf ' ') = [metadataPairs, valuePairs]) :
    pairSegments line =
      (strings.Split (metadataPairs ++ (byteOf ',') :: valuePairs) (byteOf ',')).filter
        (fun pair => decide (pair ≠ [])) := by
  unfold pairSegments
  rw [h, Split_append]
  simp

/-- A malformed line makes the body of the loop fail. -/
theorem parseLine_malformed (ts : time.Time) (line : GoString) (h : malformedLine line) :
    ∃ e, parseLine ts line = .error e := by
  unfold parseLine
  rw [SplitAfterN_two]
  by_cases hc : (byteOf ',') ∈ line
  · rw [if_pos hc]
    simp only []
    by_cases h2 : (strings.Split (restOfLine line) (byteOf ' ')).length = 2
    · rcases (length_eq_two_iff _).mp h2 with ⟨mp, vp, hs⟩
      rw [hs]
      simp only []
      rcases h with h | h | ⟨pair, hpair, hbad⟩
      · exact absurd hc h
      · exact absurd h2 h
      · rw [pairSegments_of_split line mp vp hs] at hpair
        rcases List.mem_filter.mp hpair with ⟨hmem, hne⟩
        rcases parsePairs_error _ ∅ ⟨pair, hmem, by simpa using hne, hbad⟩ with ⟨e, he⟩
        rw [he]
        exact ⟨e, rfl⟩
    · split
      · rename_i mp vp hs
        rw [hs] at h2
        exact absurd rfl h2
      · exact ⟨_, rfl⟩
  · rw [if_neg hc]
    exact ⟨_, rfl⟩

/-- A line that is not malformed gives its record. -/
theorem parseLine_wellformed (ts : time.Time) (line : GoString) (h : ¬ malformedLine line) :
    parseLine ts line = .ok (recordOfLine ts line) := by
  unfold malformedLine at h
  push_neg at h
  obtain ⟨hc, h2, hp⟩ := h
  rcases (length_eq_two_iff _).mp h2 with ⟨mp, vp, hs⟩
  have hseg := pairSegments_of_split line mp vp hs
  unfold parseLine
  rw [SplitAfterN_two, if_pos hc]
  simp only []
  rw [hs]
  simp only []
  rw [parsePairs_ok]
  · unfold recordOfLine keyValues
    rw [hseg]
  · intro pair hmem hne
    apply hp
    rw [hseg]
    exact List.mem_filter.mpr ⟨hmem, by simpa using hne⟩

theorem parseLoop_error (ts : time.Time) (lines : List GoString) :
    ∀ acc : List InfluxSample, (∃ line ∈ lines, line ≠ [] ∧ malformedLine line) →
      ∃ e, parseLoop ts lines acc = ([], some e) := by
  induction lines with
  | nil => intro acc h; simp at h
  | cons line rest ih =>
    intro acc h
    unfold parseLoop
    by_cases hl : line = []
    · rw [if_pos hl]
      apply ih
      rcases h with ⟨q, hq, hq1, hq2⟩
      rcases List.mem_cons.mp hq with rfl | hq
      · exact absurd hl hq1
      · exact ⟨q, hq, hq1, hq2⟩
    · rw [if_neg hl]
      by_cases hm : malformedLine line
      · rcases parseLine_malformed ts line hm with ⟨e, he⟩
        rw [he]
        exact ⟨e, rfl⟩
      · rw [parseLine_wellformed ts line hm]
        simp only []
        apply ih
        rcases h with ⟨q, hq, hq1, hq2⟩
        rcases List.mem_cons.mp hq with rfl | hq
        · exact absurd hq2 hm
        · exact ⟨q, hq, hq1, hq2⟩

theorem parseLoop_ok (ts : time.Time) (lines : List GoString) :
    ∀ acc : List InfluxSample, (∀ line ∈ lines, line ≠ [] → ¬ malformedLine line) →
      parseLoop ts lines acc =
        (acc ++ (lines.filter (fun line => decide (line ≠ []))).map (recordOfLine ts), none) := by
  induction lines with
  | nil => intro acc _; simp [parseLoop]
  | cons line rest ih =>
    intro acc h
    have hrest : ∀ q ∈ rest, q ≠ [] → ¬ malformedLine q :=
      fun q hq => h q (List.mem_cons_of_mem _ hq)
    unfold parseLoop
    by_cases hl : line = []
    · rw [if_pos hl, ih acc hrest, List.filter_cons_of_neg (by simpa using hl)]
    · rw [if_neg hl, parseLine_wellformed ts line (h line (List.mem_cons_self _ _) hl)]
      simp only []
      rw [ih _ hrest, List.filter_cons_of_pos (by simpa using hl), List.map_cons,
        List.append_assoc]
      rfl

/-- C6: parsing is all-or-nothing: when some non-empty line of the payload is
malformed, `parseBadRTLInfluxData` returns an error and no record at all,
whatever the other lines are. -/
theorem parseBadRTLInfluxData_all_or_nothing (ts : time.Time) (data : GoString)
    (h : ∃ line ∈ strings.Split data (byteOf '\n'), line ≠ [] ∧ malformedLine line) :
    ∃ e, parseBadRTLInfluxData ts data = ([], some e) :=
  parseLoop_error ts _ [] h

/-- A payload with a line without comma between two well-formed lines gives
an error and no record. -/
theorem parseBadRTLInfluxData_all_or_nothing_witness :
    ∃ e, parseBadRTLInfluxData 7 badPayload = ([], some e) :=
  parseBadRTLInfluxData_all_or_nothing 7 badPayload
    ⟨(gostr "badline"), by decide, by decide, by decide⟩

theorem lastValue_cons (k key value : GoString) (rest : List (GoString × GoString)) :
    lastValue k ((key, value) :: rest) =
      match lastValue k rest with
      | some w => some w
      | none => if key = k then some value else none := by
  rw [lastValue]

theorem lookup_foldl_insert (k : GoString) (kvs : List (GoString × GoString)) :
    ∀ m : GoMap GoString, (kvs.foldl (fun m p => m.insert p.1 p.2) m).lookup k =
      match lastValue k kvs with
      | some w => some w
      | none => m.lookup k := by
  induction kvs with
  | nil => intro m; rfl
  | cons p rest ih =>
    intro m
    obtain ⟨key, value⟩ := p
    rw [List.foldl_cons, ih, lastValue_cons]
    rcases lastValue k rest with _ | w
    · by_cases hk : key = k
      · subst hk
        simp
      · simp only [if_neg hk]
        exact AList.lookup_insert_ne (Ne.symm hk)
    · rfl

theorem lastValue_mem (k v : GoString) (kvs : List (GoString × GoString))
    (h : lastValue k kvs = some v) : (k, v) ∈ kvs := by
  induction kvs with
  | nil => simp [lastValue] at h
  | cons p rest ih =>
    obtain ⟨key, value⟩ := p
    rw [lastValue_cons] at h
    rcases hr : lastValue k rest with _ | w
    · rw [hr] at h
      by_cases hk : key = k
      · simp only [if_pos hk, Option.some.injEq] at h
        rw [hk, h]
        exact List.mem_cons_self _ _
      · simp [hk] at h
    · rw [hr] at h
      simp only [Option.some.injEq] at h
      subst h
      exact List.mem_cons_of_mem _ (ih hr)

theorem lastValue_of_nodup (k v : GoString) (kvs : List (GoString × GoString))
    (hn : (kvs.map Prod.fst).Nodup) (h : (k, v) ∈ kvs) : lastValue k kvs = some v := by
  induction kvs with
  | nil => simp at h
  | cons p rest ih =>
    obtain ⟨key, value⟩ := p
    rw [List.map_cons, List.nodup_cons] at hn
    rw [lastValue_cons]
    rcases List.mem_cons.mp h with he | hm
    · cases he
      rcases hr : lastValue k rest with _ | w
      · simp
      · exact absurd (List.mem_map_of_mem Prod.fst (lastValue_mem k w rest hr)) hn.1
    · rw [ih hn.2 hm]

/-- C7, as the code has it: when every non-empty line of the payload is well
formed, `parseBadRTLInfluxData` succeeds with one record per non-empty line, in
input order (none for the empty payload); the field map of a record maps every
key found in the non-empty pairs of the metadata region and the value region
of its line to the value of the last pair with that key, and has no other key;
when no key is repeated in the line, its entries are exactly the pairs found. -/
theorem parseBadRTLInfluxData_wellformed (ts : time.Time) (data : GoString)
    (h : ∀ line ∈ strings.Split data (byteOf '\n'), line ≠ [] → ¬ malformedLine line) :
    ∃ recs, parseBadRTLInfluxData ts data = (recs, none) ∧
      recs.length = (nonEmptyLines data).length ∧
      List.Forall₂ (fun line record =>
          record.Timestamp = ts ∧
          (∀ k, record.Metadata.lookup k = lastValue k (keyValues line)) ∧
          (((keyValues line).map Prod.fst).Nodup →
            ∀ k v, record.Metadata.lookup k = some v ↔ (k, v) ∈ keyValues line))
        (nonEmptyLines data) recs ∧
      (data = [] → recs = []) := by
  have hall : ∀ line ∈ nonEmptyLines data,
      (recordOfLine ts line).Timestamp = ts ∧
      (∀ k, (recordOfLine ts line).Metadata.lookup k = lastValue k (keyValues line)) ∧
      (((keyValues line).map Prod.fst).Nodup →
        ∀ k v, (recordOfLine ts line).Metadata.lookup k = some v ↔ (k, v) ∈ keyValues line) := by
    intro line _
    have hl : ∀ k, (recordOfLine ts line).Metadata.lookup k = lastValue k (keyValues line) := by
      intro k
      unfold recordOfLine
      simp only []
      rw [lookup_foldl_insert]
      rcases lastValue k (keyValues line) with _ | w
      · exact AList.lookup_empty k
      · rfl
    refine ⟨rfl, hl, ?_⟩
    intro hn k v
    rw [hl]
    exact ⟨lastValue_mem k v _, lastValue_of_nodup k v _ hn⟩
  refine ⟨(nonEmptyLines data).map (recordOfLine ts), ?_, List.length_map _ _, ?_, ?_⟩
  · unfold parseBadRTLInfluxData
    rw [parseLoop_ok ts _ [] h]
    rfl
  · rw [List.forall₂_map_right_iff, List.forall₂_same]
    exact hall
  · intro he
    rw [he]
    rfl

/-- The two-line payload parses to two records. -/
theorem parseBadRTLInfluxData_wellformed_witness :
    ∃ recs, parseBadRTLInfluxData 7 twoLinePayload = (recs, none) ∧ recs.length = 2 :=
  (parseBadRTLInfluxData_wellformed 7 twoLinePayload (by decide)).imp
    (fun _ hr => ⟨hr.1, hr.2.1⟩)

/-- The payload `A,id=1 id=2` is well formed and the pair `id=1` is found in its
metadata region, yet the field map of its record holds `2` for `id`: the pair
`id=1` is not in the map. -/
theorem parseBadRTLInfluxData_repeated_key :
    (∀ line ∈ strings.Split repeatedKeyPayload (byteOf '\n'), line ≠ [] → ¬ malformedLine line) ∧
    ((gostr "id"), (gostr "1")) ∈ keyValues repeatedKeyPayload ∧
    (parseBadRTLInfluxData 7 repeatedKeyPayload).1.map
      (fun record => record.Metadata.lookup (gostr "id")) = [some (gostr "2")] := by
  decide

/-- C8: a payload with a malformed non-empty line leaves the collector as it
was: the table of latest samples, the totals table and the discarded counter
are unchanged, whatever the other lines of the payload are. -/
theorem ServeHTTP_parse_failure (pf : GoString → Option float64) (ts : time.Time)
    (c : Collector) (body : GoString)
    (h : ∃ line ∈ strings.Split body (byteOf '\n'), line ≠ [] ∧ malformedLine line) :
    InfluxHandler.ServeHTTP pf ts c (some body) = c ∧
    (InfluxHandler.ServeHTTP pf ts c (some body)).latestMeasurements = c.latestMeasurements ∧
    (InfluxHandler.ServeHTTP pf ts c (some body)).totalMeasurements = c.totalMeasurements ∧
    (InfluxHandler.ServeHTTP pf ts c (some body)).discardedMeasurements =
      c.discardedMeasurements := by
  have hc : InfluxHandler.ServeHTTP pf ts c (some body) = c := by
    rcases parseLoop_error ts _ [] h with ⟨e, he⟩
    unfold InfluxHandler.ServeHTTP parseBadRTLInfluxData
    simp only []
    rw [he]
    rfl
  rw [hc]
  exact ⟨rfl, rfl, rfl, rfl⟩

/-- The payload with the line `badline` between two valid lines leaves a
collector that holds one sample as it was. -/
theorem ServeHTTP_parse_failure_witness :
    InfluxHandler.ServeHTTP digitsParseFloat 7 kitchenCollector (some badPayload) =
      kitchenCollector :=
  (ServeHTTP_parse_failure digitsParseFloat 7 kitchenCollector badPayload
    ⟨(gostr "badline"), by decide, by decide, by decide⟩).1

/-- C9: for a record with the four required keys whose temperature, humidity
and battery texts parse, `influxSampleToSample` returns the sample whose area
is the name the area map gives for the id, or the id itself when the map has
none, whose readings are the parsed values and whose time is the timestamp
of the record. -/
theorem influxSampleToSample_valid (pf : GoString → Option float64) (c : Collector)
    (r : InfluxSample) (id temp hum bat : GoString) (t hu b : float64)
    (hid : r.Metadata.lookup (gostr "id") = some id)
    (htemp : r.Metadata.lookup (gostr "temperature_F") = some temp)
    (hhum : r.Metadata.lookup (gostr "humidity") = some hum)
    (hbat : r.Metadata.lookup (gostr "battery_ok") = some bat)
    (ht : pf temp = some t) (hh : pf hum = some hu) (hb : pf bat = some b) :
    (c.influxSampleToSample pf r).2 =
      some { Time := r.Timestamp
             Area := match c.areaMap.lookup id with
               | some x => x
               | none => id
             Temperature := t
             Humidity := hu
             Battery := b } := by
  have hreq : requiredMetadataFields.any (fun rf => (r.Metadata.lookup rf).isNone) = false := by
    simp only [requiredMetadataFields, List.any_cons, List.any_nil, hid, htemp, hhum, hbat]
    rfl
  have e1 : GoMap.index r.Metadata (gostr "temperature_F") = temp := by
    unfold GoMap.index; rw [htemp]; rfl
  have e2 : GoMap.index r.Metadata (gostr "humidity") = hum := by
    unfold GoMap.index; rw [hhum]; rfl
  have e3 : GoMap.index r.Metadata (gostr "battery_ok") = bat := by
    unfold GoMap.index; rw [hbat]; rfl
  have e4 : GoMap.index r.Metadata (gostr "id") = id := by
    unfold GoMap.index; rw [hid]; rfl
  rw [influx_parsed pf c r t hu b hreq (by rw [e1]; exact ht) (by rw [e2]; exact hh)
    (by rw [e3]; exact hb)]
  unfold resolveArea
  rw [e4]

/-- A record for the mapped id `1` is normalised to a sample of the area `kitchen`. -/
theorem influxSampleToSample_valid_witness :
    ((NewCollector kitchenMap).influxSampleToSample digitsParseFloat
        (mkRecord 4 "1" "50" "10" "1")).2 =
      some ⟨4, (gostr "kitchen"), ⟨50⟩, ⟨10⟩, ⟨1⟩⟩ :=
  influxSampleToSample_valid digitsParseFloat (NewCollector kitchenMap)
    (mkRecord 4 "1" "50" "10" "1") (gostr "1") (gostr "50") (gostr "10") (gostr "1") ⟨50⟩ ⟨10⟩ ⟨1⟩
    (by decide) (by decide) (by decide) (by decide) (by decide) (by decide) (by decide)

/-- C10, as the code has it: a record that lacks at least one of the four
required keys yields no sample and applies the `float64` increment to the
discarded counter exactly once, however many keys are missing: the counter
rises by exactly one whenever it is below `2^53`; the table of latest samples
and the totals table are unchanged, in the normaliser and in `Observe`. -/
theorem influxSampleToSample_missing_key (pf : GoString → Option float64) (c : Collector)
    (r : InfluxSample) (h : ∃ k ∈ requiredMetadataFields, r.Metadata.lookup k = none) :
    (c.influxSampleToSample pf r).2 = none ∧
    (c.influxSampleToSample pf r).1.discardedMeasurements =
      float64.addOne c.discardedMeasurements ∧
    (c.discardedMeasurements < 9007199254740992 →
      (c.influxSampleToSample pf r).1.discardedMeasurements = c.discardedMeasurements + 1 ∧
      (c.Observe pf [r]).discardedMeasurements = c.discardedMeasurements + 1) ∧
    (c.influxSampleToSample pf r).1.latestMeasurements = c.latestMeasurements ∧
    (c.influxSampleToSample pf r).1.totalMeasurements = c.totalMeasurements ∧
    (c.Observe pf [r]).discardedMeasurements = float64.addOne c.discardedMeasurements ∧
    (c.Observe pf [r]).latestMeasurements = c.latestMeasurements ∧
    (c.Observe pf [r]).totalMeasurements = c.totalMeasurements := by
  have hreq : requiredMetadataFields.any (fun rf => (r.Metadata.lookup rf).isNone) = true := by
    rcases h with ⟨k, hk, hnone⟩
    exact List.any_eq_true.mpr ⟨k, hk, by rw [hnone]; rfl⟩
  have he := influx_missing pf c r hreq
  have ho : c.Observe pf [r] = c.discardOne := by
    rw [Observe_singleton]
    exact observeOne_none pf c r (by rw [he])
  rw [he, ho]
  refine ⟨rfl, rfl, ?_, rfl, rfl, rfl, rfl, rfl⟩
  intro hlt
  exact ⟨addOne_of_lt _ hlt, addOne_of_lt _ hlt⟩

/-- A record without `humidity` and `battery_ok` raises the discarded counter
of a collector from 0 to 1. -/
theorem influxSampleToSample_missing_key_witness :
    (kitchenCollector.Observe digitsParseFloat [incompleteRecord]).discardedMeasurements = 1 :=
  ((influxSampleToSample_missing_key digitsParseFloat kitchenCollector incompleteRecord
    ⟨(gostr "humidity"), by decide, by decide⟩).2.2.1 (by decide)).2

/-- A record without `humidity` and `battery_ok`, observed by a collector whose
discarded counter holds `2^53`, leaves the counter at `2^53`: it does not rise
by one. -/
theorem discarded_absorbed_missing_key :
    incompleteRecord.Metadata.lookup (gostr "humidity") = none ∧
    saturatedCollector.discardedMeasurements = 9007199254740992 ∧
    (saturatedCollector.influxSampleToSample digitsParseFloat
      incompleteRecord).1.discardedMeasurements = 9007199254740992 ∧
    (saturatedCollector.Observe digitsParseFloat [incompleteRecord]).discardedMeasurements =
      9007199254740992 := by
  decide

/-! ## Discards, stale samples and monotonicity -/

/-- C11, as the code has it: a record that has the four required keys but in
which at least one of the temperature, humidity and battery texts does not
parse yields no sample and applies the `float64` increment to the discarded
counter exactly once, however many of the three fail: the counter rises by
exactly one whenever it is below `2^53`; the totals table and the table of
latest samples are unchanged, in the normaliser and in `Observe`. -/
theorem influxSampleToSample_unparseable (pf : GoString → Option float64) (c : Collector)
    (r : InfluxSample)
    (hall : ∀ k ∈ requiredMetadataFields, (r.Metadata.lookup k).isSome = true)
    (hbad : pf (GoMap.index r.Metadata (gostr "temperature_F")) = none ∨
            pf (GoMap.index r.Metadata (gostr "humidity")) = none ∨
            pf (GoMap.index r.Metadata (gostr "battery_ok")) = none) :
    (c.influxSampleToSample pf r).2 = none ∧
    (c.influxSampleToSample pf r).1.discardedMeasurements =
      float64.addOne c.discardedMeasurements ∧
    (c.discardedMeasurements < 9007199254740992 →
      (c.influxSampleToSample pf r).1.discardedMeasurements = c.discardedMeasurements + 1 ∧
      (c.Observe pf [r]).discardedMeasurements = c.discardedMeasurements + 1) ∧
    (c.influxSampleToSample pf r).1.totalMeasurements = c.totalMeasurements ∧
    (c.influxSampleToSample pf r).1.latestMeasurements = c.latestMeasurements ∧
    (c.Observe pf [r]).discardedMeasurements = float64.addOne c.discardedMeasurements ∧
    (c.Observe pf [r]).totalMeasurements = c.totalMeasurements ∧
    (c.Observe pf [r]).latestMeasurements = c.latestMeasurements := by
  have hreq : requiredMetadataFields.any (fun rf => (r.Metadata.lookup rf).isNone) = false := by
    rw [List.any_eq_false]
    intro k hk
    have := hall k hk
    rcases hl : r.Metadata.lookup k with _ | v
    · rw [hl] at this; simp at this
    · simp
  have he := influx_unparsed pf c r hreq hbad
  have ho : c.Observe pf [r] = c.discardOne := by
    rw [Observe_singleton]
    exact observeOne_none pf c r (by rw [he])
  rw [he, ho]
  refine ⟨rfl, rfl, ?_, rfl, rfl, rfl, rfl, rfl⟩
  intro hlt
  exact ⟨addOne_of_lt _ hlt, addOne_of_lt _ hlt⟩

/-- A record whose humidity text is `wet` raises the discarded counter of a
collector from 0 to 1. -/
theorem influxSampleToSample_unparseable_witness :
    (kitchenCollector.Observe digitsParseFloat [unparseableRecord]).discardedMeasurements = 1 :=
  ((influxSampleToSample_unparseable digitsParseFloat kitchenCollector unparseableRecord
    (by decide) (Or.inr (Or.inl (by decide)))).2.2.1 (by decide)).2

/-- A record whose humidity text is `wet`, observed by a collector whose
discarded counter holds `2^53`, leaves the counter at `2^53`: it does not rise
by one. -/
theorem discarded_absorbed_unparseable :
    (∀ k ∈ requiredMetadataFields, (unparseableRecord.Metadata.lookup k).isSome = true) ∧
    digitsParseFloat (GoMap.index unparseableRecord.Metadata (gostr "humidity")) = none ∧
    saturatedCollector.discardedMeasurements = 9007199254740992 ∧
    (saturatedCollector.Observe digitsParseFloat [unparseableRecord]).discardedMeasurements =
      9007199254740992 := by
  decide

/-- C12, as the code has it: observing a valid sample for an area whose stored
latest sample is not strictly older leaves the table of latest samples and the
discarded counter unchanged, applies the `float64` increment once to the count
of that area, which rises by exactly one whenever it is below `2^53`, and
changes the count of no other area. -/
theorem Observe_stale_noop (pf : GoString → Option float64) (c : Collector) (r : InfluxSample)
    (s cur : sample) (hs : (c.influxSampleToSample pf r).2 = some s)
    (hcur : c.latestMeasurements.lookup s.Area = some cur) (hstale : ¬ cur.Time < s.Time) :
    (c.Observe pf [r]).latestMeasurements = c.latestMeasurements ∧
    (c.Observe pf [r]).discardedMeasurements = c.discardedMeasurements ∧
    (c.Observe pf [r]).total s.Area = float64.addOne (c.total s.Area) ∧
    (c.total s.Area < 9007199254740992 →
      (c.Observe pf [r]).total s.Area = c.total s.Area + 1) ∧
    (∀ a : GoString, a ≠ s.Area →
      (c.Observe pf [r]).totalMeasurements.lookup a = c.totalMeasurements.lookup a) := by
  rw [Observe_singleton]
  obtain ⟨hl, ht, hd⟩ := observeOne_some pf c r s hs
  have h1 : (c.observeOne pf r).total s.Area = float64.addOne (c.total s.Area) := by
    have h1 := observeOne_total pf c s.Area r
    unfold Collector.normalizesTo at h1
    rw [hs] at h1
    simpa using h1
  refine ⟨?_, hd, h1, ?_, ?_⟩
  · rw [hl]
    exact reconcile_not_newer _ s cur hcur hstale
  · intro hlt
    rw [h1, addOne_of_lt _ hlt]
  · intro a ha
    rw [ht]
    exact AList.lookup_insert_ne ha

/-- A second sample for `kitchen` carrying the time of the stored one leaves
the stored sample and raises the count of `kitchen` from 1 to 2. -/
theorem Observe_stale_noop_witness :
    (kitchenCollector.Observe digitsParseFloat
        [mkRecord 0 "1" "60" "20" "1"]).latestMeasurements = kitchenCollector.latestMeasurements ∧
    (kitchenCollector.Observe digitsParseFloat [mkRecord 0 "1" "60" "20" "1"]).total
        (gostr "kitchen") = kitchenCollector.total (gostr "kitchen") + 1 :=
  ⟨(Observe_stale_noop digitsParseFloat kitchenCollector (mkRecord 0 "1" "60" "20" "1")
      ⟨0, gostr "kitchen", ⟨60⟩, ⟨20⟩, ⟨1⟩⟩ ⟨0, gostr "kitchen", ⟨50⟩, ⟨10⟩, ⟨1⟩⟩
      (by decide) (by decide) (by decide)).1,
    (Observe_stale_noop digitsParseFloat kitchenCollector (mkRecord 0 "1" "60" "20" "1")
      ⟨0, gostr "kitchen", ⟨60⟩, ⟨20⟩, ⟨1⟩⟩ ⟨0, gostr "kitchen", ⟨50⟩, ⟨10⟩, ⟨1⟩⟩
      (by decide) (by decide) (by decide)).2.2.2.1 (by decide)⟩

/-- A sample for `kitchen` carrying the time of the stored one, observed by a
collector whose count for `kitchen` holds `2^53`, is not stored and leaves
that count at `2^53`: the count does not rise by one. -/
theorem stale_total_absorbed :
    (saturatedCollector.influxSampleToSample digitsParseFloat
      (mkRecord 0 "1" "60" "20" "1")).2 = some ⟨0, gostr "kitchen", ⟨60⟩, ⟨20⟩, ⟨1⟩⟩ ∧
    saturatedCollector.latestMeasurements.lookup (gostr "kitchen") =
      some ⟨0, gostr "kitchen", ⟨50⟩, ⟨10⟩, ⟨1⟩⟩ ∧
    saturatedCollector.totalMeasurements.lookup (gostr "kitchen") = some 9007199254740992 ∧
    (saturatedCollector.Observe digitsParseFloat
      [mkRecord 0 "1" "60" "20" "1"]).totalMeasurements.lookup (gostr "kitchen") =
      some 9007199254740992 := by
  decide

theorem reconcile_monotone (latest : GoMap sample) (s cur : sample) (A : GoString)
    (h : latest.lookup A = some cur) :
    ∃ nxt, (reconcile latest s).lookup A = some nxt ∧ cur.Time ≤ nxt.Time := by
  by_cases hA : A = s.Area
  · subst hA
    by_cases hlt : cur.Time < s.Time
    · exact ⟨s, reconcile_lookup_newer latest s cur h hlt, le_of_lt hlt⟩
    · rw [reconcile_not_newer latest s cur h hlt]
      exact ⟨cur, h, le_refl _⟩
  · rw [reconcile_lookup_ne latest s A hA]
    exact ⟨cur, h, le_refl _⟩

theorem foldl_reconcile_monotone (A : GoString) (ss : List sample) :
    ∀ (latest : GoMap sample) (cur : sample), latest.lookup A = some cur →
      ∃ nxt, (ss.foldl reconcile latest).lookup A = some nxt ∧ cur.Time ≤ nxt.Time := by
  induction ss with
  | nil => intro latest cur h; exact ⟨cur, h, le_refl _⟩
  | cons s t ih =>
    intro latest cur h
    rcases reconcile_monotone latest s cur A h with ⟨mid, hmid, hle⟩
    rcases ih (reconcile latest s) mid hmid with ⟨nxt, hnxt, hle2⟩
    exact ⟨nxt, hnxt, le_trans hle hle2⟩

/-- C14: every area that has a stored latest sample before a batch has one
after it, and the time of its latest sample after the batch is not earlier than
before: entries are never deleted and the latest time never decreases. -/
theorem Observe_latest_time_monotone (pf : GoString → Option float64) (c : Collector)
    (rs : List InfluxSample) (A : GoString) (cur : sample)
    (h : c.latestMeasurements.lookup A = some cur) :
    ∃ nxt, (c.Observe pf rs).latestMeasurements.lookup A = some nxt ∧ cur.Time ≤ nxt.Time := by
  rw [Observe_latest]
  exact foldl_reconcile_monotone A _ _ cur h

/-- A collector holding a sample of time 0 for `kitchen` still holds a sample
for `kitchen`, of time at least 0, after a batch with an older and a newer
sample. -/
theorem Observe_latest_time_monotone_witness :
    ∃ nxt, (kitchenCollector.Observe digitsParseFloat
        [mkRecord (-3) "1" "60" "20" "1", mkRecord 4 "1" "70" "30" "1"]).latestMeasurements.lookup
        (gostr "kitchen") = some nxt ∧ (0 : Int) ≤ nxt.Time :=
  Observe_latest_time_monotone digitsParseFloat kitchenCollector
    [mkRecord (-3) "1" "60" "20" "1", mkRecord 4 "1" "70" "30" "1"] (gostr "kitchen")
    ⟨0, (gostr "kitchen"), ⟨50⟩, ⟨10⟩, ⟨1⟩⟩ (by decide)

/-! ## One payload, one timestamp -/

theorem parseLoop_timestamp (ts : time.Time) (lines : List GoString) :
    ∀ acc : List InfluxSample, (∀ r ∈ acc, r.Timestamp = ts) →
      ∀ r ∈ (parseLoop ts lines acc).1, r.Timestamp = ts := by
  induction lines with
  | nil => intro acc h; exact h
  | cons line rest ih =>
    intro acc h
    unfold parseLoop
    by_cases hl : line = []
    · rw [if_pos hl]
      exact ih acc h
    · rw [if_neg hl]
      by_cases hm : malformedLine line
      · rcases parseLine_malformed ts line hm with ⟨e, he⟩
        rw [he]
        intro r hr
        exact absurd hr (List.not_mem_nil _)
      · rw [parseLine_wellformed ts line hm]
        apply ih
        intro r hr
        rcases List.mem_append.mp hr with hr | hr
        · exact h r hr
        · rw [List.mem_singleton.mp hr]
          rfl

theorem influx_some_time (pf : GoString → Option float64) (c : Collector) (r : InfluxSample)
    (s : sample) (h : (c.influxSampleToSample pf r).2 = some s) : s.Time = r.Timestamp := by
  rcases influx_cases pf c r with h1 | ⟨s1, -, ht, h1⟩
  · rw [h1] at h; simp at h
  · rw [h1] at h
    simp only [Option.some.injEq] at h
    rw [← h]
    exact ht

theorem normalizesTo_iff (pf : GoString → Option float64) (c : Collector) (A : GoString)
    (r : InfluxSample) :
    c.normalizesTo pf A r = true ↔ ∃ s, (c.influxSampleToSample pf r).2 = some s ∧ s.Area = A := by
  unfold Collector.normalizesTo
  rcases (c.influxSampleToSample pf r).2 with _ | s
  · simp
  · simp

theorem samplesOf_time (pf : GoString → Option float64) (c : Collector) (ts : time.Time)
    (rs : List InfluxSample) (h : ∀ r ∈ rs, r.Timestamp = ts) :
    ∀ s ∈ c.samplesOf pf rs, s.Time = ts := by
  intro s hs
  unfold Collector.samplesOf at hs
  rcases List.mem_filterMap.mp hs with ⟨r, hr, hrs⟩
  rw [influx_some_time pf c r s hrs]
  exact h r hr

theorem ServeHTTP_eq_Observe (pf : GoString → Option float64) (ts : time.Time) (c : Collector)
    (body : GoString) :
    InfluxHandler.ServeHTTP pf ts c (some body) =
      c.Observe pf (parseBadRTLInfluxData ts body).1 := rfl

theorem influx_some_readings (pf : GoString → Option float64) (c : Collector)
    (r : InfluxSample) (s : sample) (h : (c.influxSampleToSample pf r).2 = some s) :
    pf (GoMap.index r.Metadata (gostr "temperature_F")) = some s.Temperature ∧
    pf (GoMap.index r.Metadata (gostr "humidity")) = some s.Humidity ∧
    pf (GoMap.index r.Metadata (gostr "battery_ok")) = some s.Battery := by
  cases hreq : requiredMetadataFields.any (fun rf => (r.Metadata.lookup rf).isNone) with
  | true => rw [influx_missing pf c r hreq] at h; simp at h
  | false =>
    rcases ht : pf (GoMap.index r.Metadata (gostr "temperature_F")) with _ | t
    · rw [influx_unparsed pf c r hreq (Or.inl ht)] at h; simp at h
    rcases hh : pf (GoMap.index r.Metadata (gostr "humidity")) with _ | hu
    · rw [influx_unparsed pf c r hreq (Or.inr (Or.inl hh))] at h; simp at h
    rcases hb : pf (GoMap.index r.Metadata (gostr "battery_ok")) with _ | b
    · rw [influx_unparsed pf c r hreq (Or.inr (Or.inr hb))] at h; simp at h
    rw [influx_parsed pf c r t hu b hreq ht hh hb] at h
    simp only [Option.some.injEq] at h
    rw [← h]
    exact ⟨rfl, rfl, rfl⟩

theorem recordOfLine_lookup (ts : time.Time) (line k : GoString) :
    (recordOfLine ts line).Metadata.lookup k = lastValue k (keyValues line) := by
  unfold recordOfLine
  simp only []
  rw [lookup_foldl_insert]
  rcases lastValue k (keyValues line) with _ | w
  · exact AList.lookup_empty k
  · rfl

/-- C13: all the records one call of `parseBadRTLInfluxData` returns carry the
timestamp taken at its start; so when the non-empty lines of a payload are all
well formed and their records all normalise to the area `A`, ingesting the
payload into a collector with no entry for `A` leaves as the latest of `A` the
sample of the first line: its readings are the parsed temperature, humidity
and battery texts of the first line, and the later lines, of the same time, do
not replace it. -/
theorem ServeHTTP_first_line_wins (pf : GoString → Option float64) (ts : time.Time)
    (c : Collector) (body : GoString) (A : GoString) :
    (∀ r ∈ (parseBadRTLInfluxData ts body).1, r.Timestamp = ts) ∧
    (c.latestMeasurements.lookup A = none →
      ∀ (l0 : GoString) (ls : List GoString), nonEmptyLines body = l0 :: ls →
        (∀ line ∈ strings.Split body (byteOf '\n'), line ≠ [] → ¬ malformedLine line) →
        (∀ r ∈ (parseBadRTLInfluxData ts body).1, c.normalizesTo pf A r = true) →
        ∃ (r0 : InfluxSample) (rest : List InfluxSample) (s0 : sample),
          parseBadRTLInfluxData ts body = (r0 :: rest, none) ∧ rest.length = ls.length ∧
          (∀ k, r0.Metadata.lookup k = lastValue k (keyValues l0)) ∧
          (c.influxSampleToSample pf r0).2 = some s0 ∧
          s0.Time = ts ∧ s0.Area = A ∧
          pf ((lastValue (gostr "temperature_F") (keyValues l0)).getD []) =
            some s0.Temperature ∧
          pf ((lastValue (gostr "humidity") (keyValues l0)).getD []) = some s0.Humidity ∧
          pf ((lastValue (gostr "battery_ok") (keyValues l0)).getD []) = some s0.Battery ∧
          (InfluxHandler.ServeHTTP pf ts c (some body)).latestMeasurements.lookup A =
            some s0) := by
  have hts : ∀ r ∈ (parseBadRTLInfluxData ts body).1, r.Timestamp = ts :=
    parseLoop_timestamp ts _ [] (fun r hr => absurd hr (List.not_mem_nil _))
  refine ⟨hts, ?_⟩
  intro h0 l0 ls hlines hw hvalid
  have hparse : parseBadRTLInfluxData ts body =
      (recordOfLine ts l0 :: ls.map (recordOfLine ts), none) := by
    unfold parseBadRTLInfluxData
    rw [parseLoop_ok ts _ [] hw]
    unfold nonEmptyLines at hlines
    rw [hlines]
    rfl
  rw [ServeHTTP_eq_Observe]
  rw [hparse] at hts hvalid
  simp only [] at hts hvalid
  rw [hparse]
  simp only []
  have hv : ∀ r ∈ recordOfLine ts l0 :: ls.map (recordOfLine ts),
      ∃ s, (c.influxSampleToSample pf r).2 = some s ∧ s.Area = A :=
    fun r hr => (normalizesTo_iff pf c A r).mp (hvalid r hr)
  rcases hv _ (List.mem_cons_self _ _) with ⟨s0, hs0, hA⟩
  have htime := samplesOf_time pf c ts _ hts
  rcases Observe_first_maximum pf c A h0 _ (List.cons_ne_nil _ _) hv with
    ⟨pre, x, post, he, hpre, -, hfin⟩
  obtain ⟨ht, hh, hb⟩ := influx_some_readings pf c _ s0 hs0
  unfold GoMap.index at ht hh hb
  rw [recordOfLine_lookup] at ht hh hb
  refine ⟨recordOfLine ts l0, ls.map (recordOfLine ts), s0, rfl, List.length_map _ _,
    recordOfLine_lookup ts l0, hs0, ?_, hA, ht, hh, hb, ?_⟩
  · rw [influx_some_time pf c _ s0 hs0]
    rfl
  · cases pre with
    | nil =>
      rw [samplesOf_cons_some pf c _ _ s0 hs0] at he
      simp only [List.nil_append, List.cons.injEq] at he
      rw [hfin, he.1]
    | cons p pre =>
      have hp : p.Time = ts := htime p (by rw [he]; simp)
      have hx : x.Time = ts := htime x (by rw [he]; simp)
      have hlt := hpre p (List.mem_cons_self _ _)
      rw [hp, hx] at hlt
      exact absurd hlt (lt_irrefl _)

/-- The payload with `temperature_F=50` and then `temperature_F=60` for the
id `1`, ingested by a fresh collector, leaves the temperature 50 stored. -/
theorem ServeHTTP_first_line_wins_witness :
    ∃ s0, (InfluxHandler.ServeHTTP digitsParseFloat 7 (NewCollector kitchenMap)
        (some twoLinePayload)).latestMeasurements.lookup (gostr "kitchen") = some s0 ∧
      s0.Temperature = ⟨50⟩ := by
  obtain ⟨r0, rest, s0, -, -, -, -, -, -, ht, -, -, hstored⟩ :=
    (ServeHTTP_first_line_wins digitsParseFloat 7 (NewCollector kitchenMap) twoLinePayload
      (gostr "kitchen")).2 (by decide) twoLinePayloadFirst [twoLinePayloadSecond]
      (by decide) (by decide) (by decide)
  have e : some s0.Temperature = some ⟨50⟩ := ht.symm.trans (by decide)
  exact ⟨s0, hstored, Option.some.inj e⟩

/-! ## Tokens of a pair -/

/-- C16, as the code has it: the collector built by `NewCollector` describes
five metrics, named `rtl_temperature`, `rtl_humidity` and `rtl_battery_status`
(sent by `Collect` as gauges, with the single label `area`),
`rtl_measurements_total` (a counter with the single label `area`) and
`rtl_discarded_measurements_total` (a counter without label); `Collect` sends
points of no other kind, and it does send its points when every area is valid
UTF-8. -/
theorem NewCollector_metric_identities (areaMap : GoMap GoString) :
    (NewCollector areaMap).Describe.map (fun d => (d.fqName, d.variableLabels)) =
      [("rtl_temperature", ["area"]), ("rtl_humidity", ["area"]),
       ("rtl_battery_status", ["area"]), ("rtl_measurements_total", ["area"]),
       ("rtl_discarded_measurements_total", [])] ∧
    (∀ (now : GoString → time.Time) (c : Collector), c.descsBuilt →
      (c.labelsValid → ∃ out, c.Collect now = some out) ∧
      ∀ out, c.Collect now = some out →
        ∀ m ∈ out, (m.valueType, m.desc.fqName, m.desc.variableLabels) ∈
          [(prometheus.ValueType.GaugeValue, "rtl_temperature", ["area"]),
           (prometheus.ValueType.GaugeValue, "rtl_humidity", ["area"]),
           (prometheus.ValueType.GaugeValue, "rtl_battery_status", ["area"]),
           (prometheus.ValueType.CounterValue, "rtl_measurements_total", ["area"]),
           (prometheus.ValueType.CounterValue, "rtl_discarded_measurements_total", [])]) := by
  refine ⟨rfl, ?_⟩
  intro now c hd
  refine ⟨fun hv => ⟨_, Collect_built now c hd hv⟩, ?_⟩
  intro out hout
  rw [Collect_some now c out hout]
  obtain ⟨h1, h2, h3, h4, h5⟩ := hd
  intro m hm
  rcases List.mem_append.mp hm with hm | hm
  · rcases List.mem_map.mp hm with ⟨e, -, rfl⟩
    simp [Collector.totalPoint, h4, NewCollector, prometheus.NewDesc]
  · rcases List.mem_cons.mp hm with rfl | hm
    · simp [Collector.discardedPoint, h5, NewCollector, prometheus.NewDesc]
    · rcases mem_gauges now c m hm with ⟨area, s, -, -, hg⟩
      simp only [Collector.gaugePoints, List.mem_cons, List.mem_singleton, List.not_mem_nil,
        or_false] at hg
      rcases hg with rfl | rfl | rfl
      · simp [h1, NewCollector, prometheus.NewDesc]
      · simp [h2, NewCollector, prometheus.NewDesc]
      · simp [h3, NewCollector, prometheus.NewDesc]

/-- The export of a collector holding one sample has points of the five
described kinds only. -/
theorem NewCollector_metric_identities_witness :
    ∃ out, kitchenCollector.Collect (fun _ => 5) = some out ∧
      ∀ m ∈ out, (m.valueType, m.desc.fqName, m.desc.variableLabels) ∈
        [(prometheus.ValueType.GaugeValue, "rtl_temperature", ["area"]),
         (prometheus.ValueType.GaugeValue, "rtl_humidity", ["area"]),
         (prometheus.ValueType.GaugeValue, "rtl_battery_status", ["area"]),
         (prometheus.ValueType.CounterValue, "rtl_measurements_total", ["area"]),
         (prometheus.ValueType.CounterValue, "rtl_discarded_measurements_total", [])] :=
  (((NewCollector_metric_identities kitchenMap).2 (fun _ => 5) kitchenCollector
    ⟨rfl, rfl, rfl, rfl, rfl⟩).1 (by decide)).imp
    (fun out hout => ⟨hout, ((NewCollector_metric_identities kitchenMap).2 (fun _ => 5)
      kitchenCollector ⟨rfl, rfl, rfl, rfl, rfl⟩).2 out hout⟩)

/-- The names the collector of `NewCollector` describes carry the prefix `rtl_`:
none of them is `temperature`, `humidity`, `battery_status`, `measurements_total`
or `discarded_measurements_total`. -/
theorem NewCollector_names_differ :
    (NewCollector kitchenMap).Describe.map (fun d => d.fqName) =
      ["rtl_temperature", "rtl_humidity", "rtl_battery_status", "rtl_measurements_total",
       "rtl_discarded_measurements_total"] ∧
    ∀ name ∈ ["temperature", "humidity", "battery_status", "measurements_total",
        "discarded_measurements_total"],
      name ∉ (NewCollector kitchenMap).Describe.map (fun d => d.fqName) := by
  decide

/-! ## The mutex -/

theorem writesLocked_append_false (ops rest : List StoreOp) :
    ∀ held : Bool, writesLocked held ops = false → writesLocked held (ops ++ rest) = false := by
  induction ops with
  | nil => intro held h; simp [writesLocked] at h
  | cons op ops ih =>
    intro held h
    cases op with
    | lock => exact ih true h
    | unlock => exact ih false h
    | read f => exact ih held h
    | write f =>
      simp only [List.cons_append, writesLocked, Bool.and_eq_false_imp] at h ⊢
      intro hh
      exact ih held (h hh)

theorem influxSampleToSampleOps_unlocked (pf : GoString → Option float64) (r : InfluxSample) :
    writesLocked false (Collector.influxSampleToSampleOps pf r) = false := by
  unfold Collector.influxSampleToSampleOps
  split_ifs
  · rfl
  · split <;> rfl

/-- The operations of `Observe` on any non-empty batch break the lock
discipline: the first record already makes the normaliser store to
`discardedMeasurements` or to `totalMeasurements` while the mutex is not held.
The operations of `Collect` and the stores to `latestMeasurements` respect it. -/
theorem ObserveOps_unlocked_write (pf : GoString → Option float64) (c : Collector)
    (r : InfluxSample) (rs : List InfluxSample) :
    writesLocked false (c.ObserveOps pf (r :: rs)) = false ∧
    lockDiscipline false Collector.CollectOps = true ∧
    writesLocked false [.lock, .write .latestMeasurements, .unlock] = true := by
  refine ⟨?_, rfl, rfl⟩
  unfold Collector.ObserveOps Collector.observeOneOps
  rw [List.append_assoc]
  exact writesLocked_append_false _ _ false (influxSampleToSampleOps_unlocked pf r)

/-! ## The metric name -/

/-- The record of the line `A,id=1 temperature_F=50,humidity=10,battery_ok=1`
has the metric name `A,`, with the comma, not `A`. -/
theorem parseBadRTLInfluxData_metric_keeps_comma :
    (parseBadRTLInfluxData 7 twoLinePayloadFirst).1.map (fun record => record.Metric) =
      [(gostr "A,")] ∧
    (parseBadRTLInfluxData 7 twoLinePayloadFirst).1.map (fun record => record.Metric) ≠
      [(gostr "A")] := by
  decide

/-! ## Conservation of records -/

theorem sum_dlookup_kerase (a : GoString) (l : List (Sigma (fun _ : GoString => Nat))) :
    (l.map (fun e => e.2)).sum =
      (l.dlookup a).getD 0 + ((l.kerase a).map (fun e => e.2)).sum := by
  induction l with
  | nil => rfl
  | cons e l ih =>
    obtain ⟨k, n⟩ := e
    by_cases h : a = k
    · subst h
      rw [List.dlookup_cons_eq, List.kerase_cons_eq (s := ⟨a, n⟩) (l := l) rfl]
      rfl
    · rw [List.dlookup_cons_ne l ⟨k, n⟩ h, List.kerase_cons_ne h, List.map_cons, List.sum_cons,
        List.map_cons, List.sum_cons, ih]
      omega

theorem countOne_totalSum (c : Collector) (area : GoString) :
    (c.countOne area).totalSum + c.total area =
      c.totalSum + float64.addOne (c.total area) := by
  unfold Collector.totalSum Collector.countOne Collector.total
  simp only [AList.insert_entries, List.map_cons, List.sum_cons]
  rw [sum_dlookup_kerase area c.totalMeasurements.entries, nextTotal_eq]
  unfold AList.lookup
  omega

theorem observeOne_conservation (pf : GoString → Option float64) (c : Collector)
    (r : InfluxSample) :
    ((c.observeOne pf r).discardedMeasurements = float64.addOne c.discardedMeasurements ∧
      (c.observeOne pf r).totalMeasurements = c.totalMeasurements) ∨
    ((c.observeOne pf r).discardedMeasurements = c.discardedMeasurements ∧
      ∃ A : GoString, (c.observeOne pf r).totalMeasurements = (c.countOne A).totalMeasurements ∧
        (c.observeOne pf r).total A = float64.addOne (c.total A) ∧
        ∀ a : GoString, a ≠ A →
          (c.observeOne pf r).totalMeasurements.lookup a = c.totalMeasurements.lookup a) := by
  rcases h : (c.influxSampleToSample pf r).2 with _ | s
  · rw [observeOne_none pf c r h]
    exact Or.inl ⟨rfl, rfl⟩
  · obtain ⟨-, ht, hd⟩ := observeOne_some pf c r s h
    refine Or.inr ⟨hd, s.Area, ht, ?_, ?_⟩
    · have h1 := observeOne_total pf c s.Area r
      unfold Collector.normalizesTo at h1
      rw [h] at h1
      simpa using h1
    · intro a ha
      rw [ht]
      exact AList.lookup_insert_ne ha

/-- One step of `Observe` on a collector whose counters leave room for `k + 1`
more increments raises the discarded counter plus the sum of the counts by
one and leaves room for `k` more. -/
theorem observeOne_sum (pf : GoString → Option float64) (c : Collector) (r : InfluxSample)
    (k : Nat) (hd : c.discardedMeasurements + (k + 1) ≤ 9007199254740992)
    (ht : ∀ (a : GoString) (n : Nat), c.totalMeasurements.lookup a = some n →
      n + (k + 1) ≤ 9007199254740992) :
    (c.observeOne pf r).discardedMeasurements + (c.observeOne pf r).totalSum =
      c.discardedMeasurements + c.totalSum + 1 ∧
    (c.observeOne pf r).discardedMeasurements + k ≤ 9007199254740992 ∧
    (∀ (a : GoString) (n : Nat), (c.observeOne pf r).totalMeasurements.lookup a = some n →
      n + k ≤ 9007199254740992) := by
  rcases observeOne_conservation pf c r with ⟨hd1, ht1⟩ | ⟨hd1, A, ht1, htA, -⟩
  · have hs : (c.observeOne pf r).totalSum = c.totalSum := by
      unfold Collector.totalSum
      rw [ht1]
    rw [hd1, hs, ht1, addOne_of_lt _ (by omega)]
    refine ⟨by omega, by omega, ?_⟩
    intro a n h
    have := ht a n h
    omega
  · have hs : (c.observeOne pf r).totalSum = (c.countOne A).totalSum := by
      unfold Collector.totalSum
      rw [ht1]
    have hbound : c.total A + (k + 1) ≤ 9007199254740992 := by
      unfold Collector.total
      rcases hl : c.totalMeasurements.lookup A with _ | n
      · simp only [Option.getD_none]; omega
      · simp only [Option.getD_some]; exact ht A n hl
    have hadd : float64.addOne (c.total A) = c.total A + 1 := addOne_of_lt _ (by omega)
    have hsum := countOne_totalSum c A
    rw [hadd] at hsum
    rw [hd1, hs]
    refine ⟨by omega, by omega, ?_⟩
    intro a n h
    rw [ht1] at h
    by_cases ha : a = A
    · subst ha
      unfold Collector.countOne at h
      simp only [AList.lookup_insert, Option.some.injEq] at h
      rw [nextTotal_eq] at h
      have : float64.addOne (c.total a) = n := h
      rw [hadd] at this
      omega
    · unfold Collector.countOne at h
      simp only [] at h
      rw [AList.lookup_insert_ne ha] at h
      have := ht a n h
      omega

theorem Observe_sum (pf : GoString → Option float64) (rs : List InfluxSample) :
    ∀ c : Collector, c.discardedMeasurements + rs.length ≤ 9007199254740992 →
      (∀ (a : GoString) (n : Nat), c.totalMeasurements.lookup a = some n →
        n + rs.length ≤ 9007199254740992) →
      (c.Observe pf rs).discardedMeasurements + (c.Observe pf rs).totalSum =
        c.discardedMeasurements + c.totalSum + rs.length := by
  induction rs with
  | nil => intro c _ _; rfl
  | cons r rs ih =>
    intro c hd ht
    rw [List.length_cons] at hd ht
    obtain ⟨h1, h2, h3⟩ := observeOne_sum pf c r rs.length hd ht
    rw [Observe_cons, ih _ h2 h3, List.length_cons]
    omega

/-- C19, as the code has it: every record of a batch applies the `float64`
increment to exactly one counter, the discarded counter or the count of one
area; so over a batch of `n` records, when the discarded counter and every
count are at least `n` below `2^53`, the rise of the discarded counter plus the
rise of the sum of the counts of all areas is `n`. -/
theorem Observe_record_conservation (pf : GoString → Option float64) (c : Collector)
    (rs : List InfluxSample) :
    (c.discardedMeasurements + rs.length ≤ 9007199254740992 →
      (∀ e ∈ c.totalMeasurements.entries, e.2 + rs.length ≤ 9007199254740992) →
      (c.Observe pf rs).discardedMeasurements + (c.Observe pf rs).totalSum =
        c.discardedMeasurements + c.totalSum + rs.length) ∧
    (∀ r : InfluxSample,
      ((c.Observe pf [r]).discardedMeasurements = float64.addOne c.discardedMeasurements ∧
        (c.Observe pf [r]).totalMeasurements = c.totalMeasurements) ∨
      ((c.Observe pf [r]).discardedMeasurements = c.discardedMeasurements ∧
        ∃ A : GoString, (c.Observe pf [r]).total A = float64.addOne (c.total A) ∧
          ∀ a : GoString, a ≠ A →
            (c.Observe pf [r]).totalMeasurements.lookup a = c.totalMeasurements.lookup a)) := by
  constructor
  · intro hd ht
    exact Observe_sum pf rs c hd (fun a n h => ht ⟨a, n⟩ (AList.mem_lookup_iff.mp h))
  · intro r
    rw [Observe_singleton]
    rcases observeOne_conservation pf c r with h | ⟨hd, A, -, h1, h2⟩
    · exact Or.inl h
    · exact Or.inr ⟨hd, A, h1, h2⟩

/-! ## Consistency of the tables -/

theorem mem_reconcile (latest : GoMap sample) (s : sample) (a : GoString) :
    a ∈ reconcile latest s ↔ a = s.Area ∨ a ∈ latest := by
  unfold reconcile
  rcases h : latest.lookup s.Area with _ | cur
  · exact AList.mem_insert latest
  · have hin : s.Area ∈ latest := AList.lookup_isSome.mp (by rw [h]; rfl)
    by_cases hlt : cur.Time < s.Time
    · simp only [if_pos hlt]
      exact AList.mem_insert latest
    · simp only [if_neg hlt]
      constructor
      · exact Or.inr
      · rintro (rfl | h1)
        · exact hin
        · exact h1

theorem lookup_reconcile_area (latest : GoMap sample) (s : sample)
    (h : ∀ (a : GoString) (x : sample), latest.lookup a = some x → x.Area = a) :
    ∀ (a : GoString) (x : sample), (reconcile latest s).lookup a = some x → x.Area = a := by
  intro a x hx
  by_cases ha : a = s.Area
  · subst ha
    unfold reconcile at hx
    rcases hl : latest.lookup s.Area with _ | cur
    · rw [hl] at hx
      simp only [AList.lookup_insert, Option.some.injEq] at hx
      rw [← hx]
    · rw [hl] at hx
      by_cases hlt : cur.Time < s.Time
      · simp only [if_pos hlt, AList.lookup_insert, Option.some.injEq] at hx
        rw [← hx]
      · simp only [if_neg hlt] at hx
        exact h _ x hx
  · rw [reconcile_lookup_ne latest s a ha] at hx
    exact h a x hx

theorem observeOne_consistent (pf : GoString → Option float64) (c : Collector) (r : InfluxSample)
    (hc : c.consistent) : (c.observeOne pf r).consistent := by
  rcases h : (c.influxSampleToSample pf r).2 with _ | s
  · rw [observeOne_none pf c r h]
    exact hc
  · obtain ⟨hl, ht, -⟩ := observeOne_some pf c r s h
    obtain ⟨hk, ha, hn⟩ := hc
    unfold Collector.consistent
    rw [hl, ht]
    refine ⟨?_, lookup_reconcile_area _ s ha, ?_⟩
    · intro a
      rw [mem_reconcile, AList.mem_insert, hk a]
    · intro a n hlook
      by_cases hA : a = s.Area
      · subst hA
        rw [AList.lookup_insert] at hlook
        simp only [Option.some.injEq] at hlook
        rw [← hlook]
        rw [nextTotal_eq]
        exact addOne_pos _
      · rw [AList.lookup_insert_ne hA] at hlook
        exact hn a n hlook

theorem Observe_consistent (pf : GoString → Option float64) (rs : List InfluxSample) :
    ∀ c : Collector, c.consistent → (c.Observe pf rs).consistent := by
  induction rs with
  | nil => intro c hc; exact hc
  | cons r rs ih =>
    intro c hc
    rw [Observe_cons]
    exact ih _ (observeOne_consistent pf c r hc)

/-- C20: in every state reached from `NewCollector` by a sequence of calls of
`Observe`, the table of latest samples and the totals table have the same
areas, every stored latest sample carries the area it is stored under, and
every count is at least one. -/
theorem reachable_consistent (pf : GoString → Option float64) (areaMap : GoMap GoString)
    (batches : List (List InfluxSample)) :
    (∀ a : GoString,
      a ∈ (batches.foldl (fun c b => c.Observe pf b) (NewCollector areaMap)).latestMeasurements ↔
      a ∈ (batches.foldl (fun c b => c.Observe pf b) (NewCollector areaMap)).totalMeasurements) ∧
    (∀ (a : GoString) (s : sample),
      (batches.foldl (fun c b => c.Observe pf b)
        (NewCollector areaMap)).latestMeasurements.lookup a = some s → s.Area = a) ∧
    (∀ (a : GoString) (n : Nat),
      (batches.foldl (fun c b => c.Observe pf b)
        (NewCollector areaMap)).totalMeasurements.lookup a = some n → 1 ≤ n) := by
  have h0 : (NewCollector areaMap).consistent := by
    refine ⟨fun a => Iff.rfl, ?_, ?_⟩
    · intro a s h
      exact absurd h (by rw [show (NewCollector areaMap).latestMeasurements = ∅ from rfl,
        AList.lookup_empty]; simp)
    · intro a n h
      exact absurd h (by rw [show (NewCollector areaMap).totalMeasurements = ∅ from rfl,
        AList.lookup_empty]; simp)
  have hall : ∀ (bs : List (List InfluxSample)) (c : Collector), c.consistent →
      (bs.foldl (fun c b => c.Observe pf b) c).consistent := by
    intro bs
    induction bs with
    | nil => intro c hc; exact hc
    | cons b bs ih =>
      intro c hc
      rw [List.foldl_cons]
      exact ih _ (Observe_consistent pf b c hc)
  exact hall batches _ h0

/-- A batch of one discarded and one valid record raises the discarded counter
and the sum of the counts by two in all. -/
theorem Observe_record_conservation_witness :
    (kitchenCollector.Observe digitsParseFloat
        [incompleteRecord, mkRecord 4 "2" "60" "20" "1"]).discardedMeasurements +
      (kitchenCollector.Observe digitsParseFloat
        [incompleteRecord, mkRecord 4 "2" "60" "20" "1"]).totalSum =
      kitchenCollector.discardedMeasurements + kitchenCollector.totalSum + 2 :=
  (Observe_record_conservation digitsParseFloat kitchenCollector
    [incompleteRecord, mkRecord 4 "2" "60" "20" "1"]).1 (by decide) (by decide)

/-- A batch of one valid and one discarded record, observed by a collector
whose count for `kitchen` and whose discarded counter both hold `2^53`, leaves
both counters unchanged: the counters rise by nothing for two records. -/
theorem Observe_conservation_absorbed :
    (saturatedCollector.Observe digitsParseFloat
        [mkRecord 5 "1" "60" "20" "1", incompleteRecord]).discardedMeasurements =
      saturatedCollector.discardedMeasurements ∧
    (saturatedCollector.Observe digitsParseFloat
        [mkRecord 5 "1" "60" "20" "1", incompleteRecord]).totalSum =
      saturatedCollector.totalSum ∧
    (saturatedCollector.Observe digitsParseFloat
        [mkRecord 5 "1" "60" "20" "1", incompleteRecord]).discardedMeasurements +
      (saturatedCollector.Observe digitsParseFloat
        [mkRecord 5 "1" "60" "20" "1", incompleteRecord]).totalSum ≠
      saturatedCollector.discardedMeasurements + saturatedCollector.totalSum + 2 := by
  decide

/-- After two batches observed by a fresh collector every count is at least one. -/
theorem reachable_consistent_witness :
    ∀ (a : GoString) (n : Nat),
      (([[mkRecord 4 "2" "60" "20" "1", incompleteRecord], [mkRecord 5 "1" "50" "10" "1"]].foldl
        (fun c b => c.Observe digitsParseFloat b)
        (NewCollector kitchenMap)).totalMeasurements.lookup a = some n) → 1 ≤ n :=
  (reachable_consistent digitsParseFloat kitchenMap
    [[mkRecord 4 "2" "60" "20" "1", incompleteRecord], [mkRecord 5 "1" "50" "10" "1"]]).2.2

end rtl_433_exporter
